import Mathlib

/-!
Verification of `RestrictedPython/transformer.py` (the AST-rewriting sandbox
compiler).  We shallowly embed the Python 3.5+ fragment of the abstract syntax
tree that the claims exercise, together with the `RestrictingNodeTransformer`
visitor state and the visit functions, and prove properties of the embedding.

Modelling conventions:
* The dialect is modern Python 3 (`IS_PY2 = False`, `IS_PY3 = True`,
  `IS_PY34_OR_GREATER = True`, `IS_PY35_OR_GREATER = True`); the Python-2-only
  code paths are dead under these flags and are not embedded.
* Every node carries its `lineno` as an `Option Nat` (`none` = the attribute is
  missing, as on freshly synthesized nodes).  `col_offset` is handled by the
  source exactly like `lineno` and is not modelled separately.
* Node kinds that have no dedicated `visit_` handler in the source are
  represented by the catch-all constructor `AST.unknown kind children`, which
  the dispatcher routes to `generic_visit` exactly like Python's dynamic
  method lookup.
* `ast.NodeTransformer` semantics: a visit returns a list of replacement
  nodes; the empty list models Python's `None` return (node removed), and a
  several-element list models a statement handler returning a list.  When a
  single-node field's child visit returns no node, CPython `delattr`s the
  field; we model the resulting hole with the marker constructor
  `AST.removed`.
-/

set_option maxHeartbeats 1000000

namespace RestrictedPython

/-- Expression contexts (`ast.Load`, `ast.Store`, `ast.Del`, `ast.Param`). -/
inductive Ctx : Type
  | Load | Store | Del | Param
deriving DecidableEq, Repr

/-- The binary operators that may appear in an `ast.AugAssign` node. -/
inductive IOp : Type
  | Add | Sub | Mult | Div | Mod | Pow | LShift | RShift
  | BitOr | BitXor | BitAnd | FloorDiv | MatMult
deriving DecidableEq, Repr

/-- `IOPERATOR_TO_STR`: the textual token of each augmented-assignment
operator. -/
def IOPERATOR_TO_STR : IOp → String
  | .Add => "+="
  | .Sub => "-="
  | .Mult => "*="
  | .Div => "/="
  | .Mod => "%="
  | .Pow => "**="
  | .LShift => "<<="
  | .RShift => ">>="
  | .BitOr => "|="
  | .BitXor => "^="
  | .BitAnd => "&="
  | .FloorDiv => "//="
  | .MatMult => "@="

mutual
/-- The embedded fragment of the Python abstract syntax tree.  Constructor
and field order follow the `ast` module (`_fields` order); the first argument
of every constructor is the node's `lineno`. -/
inductive AST : Type
  | Name (lineno : Option Nat) (id : String) (ctx : Ctx)
  | Num (lineno : Option Nat) (n : Int)
  | Str (lineno : Option Nat) (s : String)
  | NameConstant (lineno : Option Nat) (value : Option Bool)
  | Tuple (lineno : Option Nat) (elts : ASTList) (ctx : Ctx)
  | Starred (lineno : Option Nat) (value : AST) (ctx : Ctx)
  | Attribute (lineno : Option Nat) (value : AST) (attr : String) (ctx : Ctx)
  | Subscript (lineno : Option Nat) (value : AST) (slice : AST) (ctx : Ctx)
  | Index (lineno : Option Nat) (value : AST)
  | Slice (lineno : Option Nat) (lower upper step : OptAST)
  | ExtSlice (lineno : Option Nat) (dims : ASTList)
  | Call (lineno : Option Nat) (func : AST) (args : ASTList) (keywords : ASTList)
  | keyword (lineno : Option Nat) (arg : Option String) (value : AST)
  | Dict (lineno : Option Nat) (keys : ASTList) (values : ASTList)
  | Assign (lineno : Option Nat) (targets : ASTList) (value : AST)
  | AugAssign (lineno : Option Nat) (target : AST) (op : IOp) (value : AST)
  | unknown (lineno : Option Nat) (kind : String) (children : ASTList)
  | removed

/-- Lists of child nodes (a first-order copy of `List AST`, so that all
recursions over the tree are plainly structural). -/
inductive ASTList : Type
  | nil
  | cons (hd : AST) (tl : ASTList)

/-- Optional child nodes (`None`-able fields such as slice bounds). -/
inductive OptAST : Type
  | noneA
  | someA (a : AST)
end

namespace ASTList

/-- Concatenation of child lists. -/
def appendL : ASTList → ASTList → ASTList
  | .nil, l => l
  | .cons a t, l => .cons a (appendL t l)

/-- Length of a child list. -/
def lengthL : ASTList → Nat
  | .nil => 0
  | .cons _ t => 1 + lengthL t

/-- Reversal of a child list (Python's `reversed`). -/
def reverseL : ASTList → ASTList
  | .nil => .nil
  | .cons a t => appendL (reverseL t) (.cons a .nil)

end ASTList

/-- Build an `ASTList` from a Lean list (statement/argument literals in
theorems). -/
def ofL : List AST → ASTList
  | [] => .nil
  | a :: t => .cons a (ofL t)

/-- A one-element result list (a visit that returns a single node). -/
def single (a : AST) : ASTList := .cons a .nil

/-- The single node of a one-element visit result.  When the child visit
returned no node (CPython would `delattr` the field) or several nodes
(CPython would jam a list into a single-node field) the hole is modelled by
`AST.removed`; both cases are unreachable for well-formed inputs. -/
def first1 : ASTList → AST
  | .cons x .nil => x
  | .nil => .removed
  | .cons _ (.cons _ _) => .removed

/-- Python's rendering of an optional line number inside
`'Line {lineno}: {info}'.format(...)`. -/
def lineStr : Option Nat → String
  | some n => toString n
  | none => "None"

/-- The per-compilation transformer state: the two diagnostic sinks, the
used-names set, the temporary counter and the `PrintInfo` flags. -/
structure TState : Type where
  errors : List String
  warnings : List String
  used_names : List String
  tmp_idx : Nat
  print_used : Bool
  printed_used : Bool
deriving DecidableEq, Repr

/-- The transformer state at the start of a compilation. -/
def st0 : TState :=
  { errors := [], warnings := [], used_names := [], tmp_idx := 0,
    print_used := false, printed_used := false }

/-- `RestrictingNodeTransformer.error`: append `"Line L: info"` to the error
sink (never aborts). -/
def error (st : TState) (lineno : Option Nat) (info : String) : TState :=
  { st with errors := st.errors ++ ["Line " ++ lineStr lineno ++ ": " ++ info] }

/-- `RestrictingNodeTransformer.warn`: append `"Line L: info"` to the warning
sink (never aborts). -/
def warn (st : TState) (lineno : Option Nat) (info : String) : TState :=
  { st with warnings := st.warnings ++ ["Line " ++ lineStr lineno ++ ": " ++ info] }

/-- `self.used_names[id] = True`: Python dict insertion (first-insertion
order, idempotent). -/
def insertUsed (l : List String) (n : String) : List String :=
  if n ∈ l then l else l ++ [n]

/-- Is the first list an initial segment of the second? -/
def isPre : List Char → List Char → Bool
  | [], _ => true
  | _ :: _, [] => false
  | a :: as, b :: bs => a == b && isPre as bs

/-- Python's `str.startswith` (kernel-computable form). -/
def startswith (s p : String) : Bool := isPre p.data s.data

/-- Python's `str.endswith` (kernel-computable form). -/
def endswith (s p : String) : Bool := isPre p.data.reverse s.data.reverse

/-- `RestrictingNodeTransformer.check_name` (the `node` parameter is only
used for its `lineno`). -/
def check_name (st : TState) (lineno : Option Nat) (name : Option String) : TState :=
  match name with
  | none => st
  | some n =>
    if startswith n "_" ∧ n ≠ "_" then
      error st lineno
        ("\"" ++ n ++ "\" is an invalid variable name because it starts with \"_\"")
    else if endswith n "__roles__" then
      error st lineno
        ("\"" ++ n ++ "\" is an invalid variable name because it ends with \"__roles__\".")
    else if n = "printed" then
      error st lineno "\"printed\" is a reserved name."
    else if n = "print" then
      error st lineno "\"print\" is a reserved name."
    else st

/-- The two attribute-name checks at the top of `visit_Attribute` (they are
independent `if`s in the source, not an `elif` chain). -/
def check_attr_name (st : TState) (lineno : Option Nat) (attr : String) : TState :=
  let st1 :=
    if startswith attr "_" ∧ attr ≠ "_" then
      error st lineno
        ("\"" ++ attr ++ "\" is an invalid attribute name because it starts with \"_\".")
    else st
  if endswith attr "__roles__" then
    error st1 lineno
      ("\"" ++ attr ++ "\" is an invalid attribute name because it ends with \"__roles__\".")
  else st1

open ASTList (appendL lengthL reverseL)

/-! ### Source locations (`copy_locations` / `ast.fix_missing_locations`) -/

mutual
/-- `ast.fix_missing_locations`' worker `_fix`: give every node of the
subtree a `lineno`, filling a missing one with the nearest filled ancestor's
(`line`). -/
def fix_missing (line : Nat) : AST → AST
  | .Name l id ctx => .Name (some (l.getD line)) id ctx
  | .Num l n => .Num (some (l.getD line)) n
  | .Str l s => .Str (some (l.getD line)) s
  | .NameConstant l v => .NameConstant (some (l.getD line)) v
  | .Tuple l elts ctx => .Tuple (some (l.getD line)) (fix_missingL (l.getD line) elts) ctx
  | .Starred l v ctx => .Starred (some (l.getD line)) (fix_missing (l.getD line) v) ctx
  | .Attribute l v attr ctx =>
      .Attribute (some (l.getD line)) (fix_missing (l.getD line) v) attr ctx
  | .Subscript l v s ctx =>
      .Subscript (some (l.getD line)) (fix_missing (l.getD line) v)
        (fix_missing (l.getD line) s) ctx
  | .Index l v => .Index (some (l.getD line)) (fix_missing (l.getD line) v)
  | .Slice l lo up stp =>
      .Slice (some (l.getD line)) (fix_missingO (l.getD line) lo)
        (fix_missingO (l.getD line) up) (fix_missingO (l.getD line) stp)
  | .ExtSlice l dims => .ExtSlice (some (l.getD line)) (fix_missingL (l.getD line) dims)
  | .Call l f args kws =>
      .Call (some (l.getD line)) (fix_missing (l.getD line) f)
        (fix_missingL (l.getD line) args) (fix_missingL (l.getD line) kws)
  | .keyword l a v => .keyword (some (l.getD line)) a (fix_missing (l.getD line) v)
  | .Dict l ks vs =>
      .Dict (some (l.getD line)) (fix_missingL (l.getD line) ks)
        (fix_missingL (l.getD line) vs)
  | .Assign l ts v =>
      .Assign (some (l.getD line)) (fix_missingL (l.getD line) ts)
        (fix_missing (l.getD line) v)
  | .AugAssign l t op v =>
      .AugAssign (some (l.getD line)) (fix_missing (l.getD line) t) op
        (fix_missing (l.getD line) v)
  | .unknown l k c => .unknown (some (l.getD line)) k (fix_missingL (l.getD line) c)
  | .removed => .removed

/-- `fix_missing` over a child list. -/
def fix_missingL (line : Nat) : ASTList → ASTList
  | .nil => .nil
  | .cons a t => .cons (fix_missing line a) (fix_missingL line t)

/-- `fix_missing` over an optional child. -/
def fix_missingO (line : Nat) : OptAST → OptAST
  | .noneA => .noneA
  | .someA a => .someA (fix_missing line a)
end

/-- The `lineno` of a node. -/
def linenoOf : AST → Option Nat
  | .Name l .. => l
  | .Num l .. => l
  | .Str l .. => l
  | .NameConstant l .. => l
  | .Tuple l .. => l
  | .Starred l .. => l
  | .Attribute l .. => l
  | .Subscript l .. => l
  | .Index l .. => l
  | .Slice l .. => l
  | .ExtSlice l .. => l
  | .Call l .. => l
  | .keyword l .. => l
  | .Dict l .. => l
  | .Assign l .. => l
  | .AugAssign l .. => l
  | .unknown l .. => l
  | .removed => none

/-- Overwrite the `lineno` of a node's root. -/
def withLineno (node : AST) (l : Option Nat) : AST :=
  match node with
  | .Name _ id ctx => .Name l id ctx
  | .Num _ n => .Num l n
  | .Str _ s => .Str l s
  | .NameConstant _ v => .NameConstant l v
  | .Tuple _ elts ctx => .Tuple l elts ctx
  | .Starred _ v ctx => .Starred l v ctx
  | .Attribute _ v attr ctx => .Attribute l v attr ctx
  | .Subscript _ v s ctx => .Subscript l v s ctx
  | .Index _ v => .Index l v
  | .Slice _ lo up stp => .Slice l lo up stp
  | .ExtSlice _ dims => .ExtSlice l dims
  | .Call _ f args kws => .Call l f args kws
  | .keyword _ a v => .keyword l a v
  | .Dict _ ks vs => .Dict l ks vs
  | .Assign _ ts v => .Assign l ts v
  | .AugAssign _ t op v => .AugAssign l t op v
  | .unknown _ k c => .unknown l k c
  | .removed => .removed

/-- `copy_locations(new_node, old_node)`: copy `old_node`'s `lineno` onto
`new_node`, then `ast.fix_missing_locations(new_node)` (whose recursion
starts from line 1 at the root). -/
def copy_locations (new_node old_node : AST) : AST :=
  fix_missing 1 (withLineno new_node (linenoOf old_node))

mutual
/-- Erase every `lineno` in a tree (proof-statement helper: lets theorems
about rewritten shapes ignore the copied source locations). -/
def stripLines : AST → AST
  | .Name _ id ctx => .Name none id ctx
  | .Num _ n => .Num none n
  | .Str _ s => .Str none s
  | .NameConstant _ v => .NameConstant none v
  | .Tuple _ elts ctx => .Tuple none (stripLinesL elts) ctx
  | .Starred _ v ctx => .Starred none (stripLines v) ctx
  | .Attribute _ v attr ctx => .Attribute none (stripLines v) attr ctx
  | .Subscript _ v s ctx => .Subscript none (stripLines v) (stripLines s) ctx
  | .Index _ v => .Index none (stripLines v)
  | .Slice _ lo up stp =>
      .Slice none (stripLinesO lo) (stripLinesO up) (stripLinesO stp)
  | .ExtSlice _ dims => .ExtSlice none (stripLinesL dims)
  | .Call _ f args kws => .Call none (stripLines f) (stripLinesL args) (stripLinesL kws)
  | .keyword _ a v => .keyword none a (stripLines v)
  | .Dict _ ks vs => .Dict none (stripLinesL ks) (stripLinesL vs)
  | .Assign _ ts v => .Assign none (stripLinesL ts) (stripLines v)
  | .AugAssign _ t op v => .AugAssign none (stripLines t) op (stripLines v)
  | .unknown _ k c => .unknown none k (stripLinesL c)
  | .removed => .removed

/-- `stripLines` over a child list. -/
def stripLinesL : ASTList → ASTList
  | .nil => .nil
  | .cons a t => .cons (stripLines a) (stripLinesL t)

/-- `stripLines` over an optional child. -/
def stripLinesO : OptAST → OptAST
  | .noneA => .noneA
  | .someA a => .someA (stripLines a)
end

/-! ### The unpack-spec builder and slice transformer -/

/-- `gen_none_node`: on Python ≥ 3.4 a fresh `ast.NameConstant(value=None)`. -/
def gen_none_node : AST := .NameConstant none none

/-- `is_starred` (with `IS_PY3 = True`). -/
def is_starred : AST → Bool
  | .Starred .. => true
  | .Name .. | .Num .. | .Str .. | .NameConstant .. | .Tuple .. | .Attribute ..
  | .Subscript .. | .Index .. | .Slice .. | .ExtSlice .. | .Call .. | .keyword ..
  | .Dict .. | .Assign .. | .AugAssign .. | .unknown .. | .removed => false

/-- Is the node an `ast.Tuple`? (`isinstance(ob, ast.Tuple)`). -/
def isTuple : AST → Bool
  | .Tuple .. => true
  | .Name .. | .Num .. | .Str .. | .NameConstant .. | .Starred .. | .Attribute ..
  | .Subscript .. | .Index .. | .Slice .. | .ExtSlice .. | .Call .. | .keyword ..
  | .Dict .. | .Assign .. | .AugAssign .. | .unknown .. | .removed => false

/-- Number of non-starred elements of a target list (the `min_len` of
`gen_unpack_spec`). -/
def countNonStarred : ASTList → Nat
  | .nil => 0
  | .cons a t => (if is_starred a then 0 else 1) + countNonStarred t

mutual
/-- `gen_unpack_spec`: the nested descriptor guarding sequence unpacking.
The source builds `{'childs': (...), 'min_len': n}` (keys appended in that
order) from `tpl.elts`; it is only ever called on `ast.Tuple` nodes, so the
non-tuple fallback (empty element list) is unreachable. -/
def gen_unpack_spec : AST → AST
  | .Tuple _ elts _ =>
      .Dict none
        (.cons (.Str none "childs") (.cons (.Str none "min_len") .nil))
        (.cons (.Tuple none (spec_children elts (countNonStarred elts) 0 0) .Load)
          (.cons (.Num none (countNonStarred elts)) .nil))
  | _ =>
      .Dict none
        (.cons (.Str none "childs") (.cons (.Str none "min_len") .nil))
        (.cons (.Tuple none .nil .Load) (.cons (.Num none 0) .nil))

/-- The element loop of `gen_unpack_spec`: `idx` is the position of the list
head in the whole target, `offset` the current index correction (0 until a
starred element is seen, `min_len + 1` afterwards).  Tuple elements emit a
child record `(idx - offset, spec)`; starred and plain elements emit none. -/
def spec_children : ASTList → Nat → Nat → Nat → ASTList
  | .nil, _, _, _ => .nil
  | .cons val rest, min_len, idx, offset =>
    if is_starred val then
      spec_children rest min_len (idx + 1) (min_len + 1)
    else
      match val with
      | .Tuple l elts c =>
          .cons
            (.Tuple none
              (.cons (.Num none ((idx : Int) - (offset : Int)))
                (.cons (gen_unpack_spec (.Tuple l elts c)) .nil)) .Load)
            (spec_children rest min_len (idx + 1) offset)
      | _ => spec_children rest min_len (idx + 1) offset
end

/-- `protect_unpack_sequence`: wrap `value` in
`_unpack_sequence_(value, spec, _getiter_)`. -/
def protect_unpack_sequence (target value : AST) : AST :=
  .Call none (.Name none "_unpack_sequence_" .Load)
    (.cons value (.cons (gen_unpack_spec target) (.cons (.Name none "_getiter_" .Load) .nil)))
    .nil

/-- A missing slice bound becomes the none literal (`transform_slice`'s
`if slice_.lower: ... else: gen_none_node()` arms). -/
def boundArg : OptAST → AST
  | .someA a => a
  | .noneA => gen_none_node

mutual
/-- `transform_slice`: rewrite the slice child of a subscript into a call
argument.  The source raises on any other node kind; that arm is unreachable
for well-formed subscripts and is modelled as the identity. -/
def transform_slice : AST → AST
  | .Index _ value => value
  | .Slice _ lower upper step =>
      .Call none (.Name none "slice" .Load)
        (.cons (boundArg lower) (.cons (boundArg upper) (.cons (boundArg step) .nil)))
        .nil
  | .ExtSlice _ dims => .Tuple none (transform_sliceL dims) .Load
  | s => s

/-- `transform_slice` over the dims of an `ast.ExtSlice`. -/
def transform_sliceL : ASTList → ASTList
  | .nil => .nil
  | .cons a t => .cons (transform_slice a) (transform_sliceL t)
end

/-! ### The dispatcher and the node handlers -/

/-- `visit_Call`'s `'*args'` detection on Python ≥ 3.5: some positional
argument is an `ast.Starred` node. -/
def anyStarred : ASTList → Bool
  | .nil => false
  | .cons a t => is_starred a || anyStarred t

/-- `visit_Call`'s `'**kwargs'` detection on Python ≥ 3.5: some keyword node
has `arg = None`. -/
def anyKwNone : ASTList → Bool
  | .nil => false
  | .cons (.keyword _ none _) _ => true
  | .cons _ t => anyKwNone t

/-- `any(isinstance(t, ast.Tuple) for t in targets)`. -/
def anyTupleL : ASTList → Bool
  | .nil => false
  | .cons a t => isTuple a || anyTupleL t

/-- The `exec` / `eval` callee check at the top of `visit_Call` (it fires
only when the callee is a bare name). -/
def check_exec_eval (st : TState) (lineno : Option Nat) (func : AST) : TState :=
  match func with
  | .Name _ "exec" _ => error st lineno "Exec calls are not allowed."
  | .Name _ "eval" _ => error st lineno "Eval calls are not allowed."
  | _ => st

/-- The target loop of `visit_Assign` (already reversed by the caller): one
assignment per target, tuple targets getting the `_unpack_sequence_` guard;
each new node gets `copy_locations(new_node, node)` from the visited
assignment `old`. -/
def mk_assigns (old : AST) (value : AST) : ASTList → ASTList
  | .nil => .nil
  | .cons target rest =>
    let new_node :=
      if isTuple target then
        .Assign none (.cons target .nil) (protect_unpack_sequence target value)
      else
        .Assign none (.cons target .nil) value
    .cons (copy_locations new_node old) (mk_assigns old value rest)

mutual
/-- The dispatcher `NodeVisitor.visit` specialized to the embedded fragment:
each constructor is routed to its `visit_<Kind>` handler, whose body is
inlined in the corresponding arm (the per-arm comments name the source
handler).  A result list models the handler's return value: `[]` is Python's
`None` (node dropped), one element is a replacement node, several elements
are a statement list. -/
def visit (st : TState) (node : AST) : TState × ASTList :=
  match node with
  -- visit_Num / visit_Str / visit_NameConstant: allowed without restrictions
  | .Num l n => (st, single (.Num l n))
  | .Str l s => (st, single (.Str l s))
  | .NameConstant l v => (st, single (.NameConstant l v))
  -- visit_Name: the ctx marker child is visited by visit_Load / visit_Store /
  -- visit_Del (all pass); then the 'printed' / 'print' load rewrites, the
  -- used-names recording and the name policy.
  | .Name l id ctx =>
    match ctx with
    | .Load =>
      if id = "printed" then
        let st := { st with printed_used := true }
        let new_node : AST := .Call none (.Name none "_print" .Load) .nil .nil
        (st, single (copy_locations new_node (.Name l id .Load)))
      else if id = "print" then
        let st := { st with print_used := true }
        let new_node : AST := .Attribute none (.Name none "_print" .Load) "_call_print" .Load
        (st, single (copy_locations new_node (.Name l id .Load)))
      else
        let st := { st with used_names := insertUsed st.used_names id }
        (check_name st l (some id), single (.Name l id .Load))
    | _ => (check_name st l (some id), single (.Name l id ctx))
  -- visit_Tuple: pass
  | .Tuple l elts ctx =>
    let (st1, elts') := visitL st elts
    (st1, single (.Tuple l elts' ctx))
  -- visit_Starred: pass
  | .Starred l v ctx =>
    let (st1, rv) := visit st v
    (st1, single (.Starred l (first1 rv) ctx))
  -- visit_Attribute: name checks, then per-context rewrite
  | .Attribute l value attr ctx =>
    let st := check_attr_name st l attr
    match ctx with
    | .Load =>
      let (st1, rv) := visit st value
      let new_node : AST :=
        .Call none (.Name none "_getattr_" .Load)
          (.cons (first1 rv) (.cons (.Str none attr) .nil)) .nil
      (st1, single (copy_locations new_node (.Attribute l (first1 rv) attr .Load)))
    | .Store =>
      let (st1, rv) := visit st value
      let new_value : AST :=
        .Call none (.Name none "_write_" .Load) (.cons (first1 rv) .nil) .nil
      (st1, single (.Attribute l (copy_locations new_value (first1 rv)) attr .Store))
    | .Del =>
      let (st1, rv) := visit st value
      let new_value : AST :=
        .Call none (.Name none "_write_" .Load) (.cons (first1 rv) .nil) .nil
      (st1, single (.Attribute l (copy_locations new_value (first1 rv)) attr .Del))
    | _ =>
      let (st1, rv) := visit st value
      (st1, single (.Attribute l (first1 rv) attr .Param))
  -- visit_Subscript: node_contents_visit first, then the per-context rewrite
  | .Subscript l value slc ctx =>
    let (st1, rv) := visit st value
    let (st2, rs) := visit st1 slc
    let value' := first1 rv
    let slc' := first1 rs
    match ctx with
    | .Load =>
      let new_node : AST :=
        .Call none (.Name none "_getitem_" .Load)
          (.cons value' (.cons (transform_slice slc') .nil)) .nil
      (st2, single (copy_locations new_node (.Subscript l value' slc' .Load)))
    | .Store =>
      let new_value : AST :=
        .Call none (.Name none "_write_" .Load) (.cons value' .nil) .nil
      (st2, single (.Subscript l (copy_locations new_value (.Subscript l value' slc' .Store)) slc' .Store))
    | .Del =>
      let new_value : AST :=
        .Call none (.Name none "_write_" .Load) (.cons value' .nil) .nil
      (st2, single (.Subscript l (copy_locations new_value (.Subscript l value' slc' .Del)) slc' .Del))
    | _ => (st2, single (.Subscript l value' slc' .Param))
  -- visit_Index / visit_Slice / visit_ExtSlice: pass
  | .Index l v =>
    let (st1, rv) := visit st v
    (st1, single (.Index l (first1 rv)))
  | .Slice l lo up stp =>
    let (st1, lo') := visitOpt st lo
    let (st2, up') := visitOpt st1 up
    let (st3, stp') := visitOpt st2 stp
    (st3, single (.Slice l lo' up' stp'))
  | .ExtSlice l dims =>
    let (st1, dims') := visitL st dims
    (st1, single (.ExtSlice l dims'))
  -- visit_Call: exec/eval check on the input callee, star detection on the
  -- input arguments, node_contents_visit, then the _apply_ rewrite
  | .Call l func args kws =>
    let st := check_exec_eval st l func
    let needs_wrap := anyStarred args || anyKwNone kws
    let (st1, rf) := visit st func
    let (st2, args') := visitL st1 args
    let (st3, kws') := visitL st2 kws
    let func' := first1 rf
    if needs_wrap then
      (st3, single (.Call l (copy_locations (.Name none "_apply_" .Load) func')
        (.cons func' args') kws'))
    else
      (st3, single (.Call l func' args' kws'))
  -- visit_keyword: pass
  | .keyword l arg v =>
    let (st1, rv) := visit st v
    (st1, single (.keyword l arg (first1 rv)))
  -- visit_Dict: pass
  | .Dict l ks vs =>
    let (st1, ks') := visitL st ks
    let (st2, vs') := visitL st1 vs
    (st2, single (.Dict l ks' vs'))
  -- visit_Assign: plain if no target is a tuple, otherwise one assignment
  -- per target, right-most target first
  | .Assign l targets value =>
    let (st1, targets') := visitL st targets
    let (st2, rv) := visit st1 value
    let value' := first1 rv
    if anyTupleL targets' then
      (st2, mk_assigns (.Assign l targets' value') value' (reverseL targets'))
    else
      (st2, single (.Assign l targets' value'))
  -- visit_AugAssign: reject attribute and subscript targets, rewrite name
  -- targets to `target = _inplacevar_("op=", target, value)`
  | .AugAssign l target op value =>
    let (st1, rt) := visit st target
    let (st2, rv) := visit st1 value
    let target' := first1 rt
    let value' := first1 rv
    match target' with
    | .Attribute la v attr ctx =>
      (error st2 l "Augmented assignment of attributes is not allowed.",
       single (.AugAssign l (.Attribute la v attr ctx) op value'))
    | .Subscript la v s ctx =>
      (error st2 l "Augmented assignment of object items and slices is not allowed.",
       single (.AugAssign l (.Subscript la v s ctx) op value'))
    | .Name lt id ctx =>
      let new_node : AST :=
        .Assign none (.cons (.Name lt id ctx) .nil)
          (.Call none (.Name none "_inplacevar_" .Load)
            (.cons (.Str none (IOPERATOR_TO_STR op))
              (.cons (.Name none id .Load) (.cons value' .nil))) .nil)
      (st2, single (copy_locations new_node (.AugAssign l (.Name lt id ctx) op value')))
    | t' => (st2, single (.AugAssign l t' op value'))
  -- generic_visit: the reject-by-default handler for node kinds without a
  -- dedicated visit_ method; warns, errors, and returns no replacement
  | .unknown l kind _ =>
    let st := warn st l (kind ++ " statement is not known to RestrictedPython")
    let st := error st l (kind ++ " statements are not allowed.")
    (st, .nil)
  -- the removed-field marker is not a Python node and is never visited on
  -- well-formed inputs; keep it unchanged for totality
  | .removed => (st, single .removed)

/-- `NodeTransformer.generic_visit`'s list-field loop: visit each child,
dropping `None` results and splicing list results. -/
def visitL (st : TState) (l : ASTList) : TState × ASTList :=
  match l with
  | .nil => (st, .nil)
  | .cons a rest =>
    let (st1, ra) := visit st a
    let (st2, rrest) := visitL st1 rest
    (st2, appendL ra rrest)

/-- `NodeTransformer.generic_visit` on an optional single-node field: a
`None` field is left alone; otherwise the child is visited (a dropped child
leaves the `removed` hole, see `first1`). -/
def visitOpt (st : TState) (o : OptAST) : TState × OptAST :=
  match o with
  | .noneA => (st, .noneA)
  | .someA a =>
    let (st1, ra) := visit st a
    (st1, .someA (first1 ra))
end

/-! ### Observations on trees: counting and well-formedness predicates -/

mutual
/-- Number of attribute-access nodes in load context in a tree. -/
def countA : AST → Nat
  | .Name .. | .Num .. | .Str .. | .NameConstant .. | .removed => 0
  | .Tuple _ elts _ => countAL elts
  | .Starred _ v _ => countA v
  | .Attribute _ v _ .Load => 1 + countA v
  | .Attribute _ v _ .Store => countA v
  | .Attribute _ v _ .Del => countA v
  | .Attribute _ v _ .Param => countA v
  | .Subscript _ v s _ => countA v + countA s
  | .Index _ v => countA v
  | .Slice _ lo up stp => countAO lo + countAO up + countAO stp
  | .ExtSlice _ dims => countAL dims
  | .Call _ f args kws => countA f + countAL args + countAL kws
  | .keyword _ _ v => countA v
  | .Dict _ ks vs => countAL ks + countAL vs
  | .Assign _ ts v => countAL ts + countA v
  | .AugAssign _ t _ v => countA t + countA v
  | .unknown _ _ c => countAL c

/-- `countA` over a child list. -/
def countAL : ASTList → Nat
  | .nil => 0
  | .cons a t => countA a + countAL t

/-- `countA` over an optional child. -/
def countAO : OptAST → Nat
  | .noneA => 0
  | .someA a => countA a
end

/-- Is the node the bare name `_getattr_`? -/
def isGA : AST → Bool
  | .Name _ id _ => id = "_getattr_"
  | .Num .. | .Str .. | .NameConstant .. | .Tuple .. | .Starred .. | .Attribute ..
  | .Subscript .. | .Index .. | .Slice .. | .ExtSlice .. | .Call .. | .keyword ..
  | .Dict .. | .Assign .. | .AugAssign .. | .unknown .. | .removed => false

mutual
/-- Number of calls whose callee is the bare name `_getattr_` in a tree. -/
def countG : AST → Nat
  | .Name .. | .Num .. | .Str .. | .NameConstant .. | .removed => 0
  | .Tuple _ elts _ => countGL elts
  | .Starred _ v _ => countG v
  | .Attribute _ v _ _ => countG v
  | .Subscript _ v s _ => countG v + countG s
  | .Index _ v => countG v
  | .Slice _ lo up stp => countGO lo + countGO up + countGO stp
  | .ExtSlice _ dims => countGL dims
  | .Call _ f args kws =>
      (if isGA f then 1 else 0) + countG f + countGL args + countGL kws
  | .keyword _ _ v => countG v
  | .Dict _ ks vs => countGL ks + countGL vs
  | .Assign _ ts v => countGL ts + countG v
  | .AugAssign _ t _ v => countG t + countG v
  | .unknown _ _ c => countGL c

/-- `countG` over a child list. -/
def countGL : ASTList → Nat
  | .nil => 0
  | .cons a t => countG a + countGL t

/-- `countG` over an optional child. -/
def countGO : OptAST → Nat
  | .noneA => 0
  | .someA a => countG a
end

mutual
/-- Number of `unknown` (no dedicated handler) nodes in a tree. -/
def countU : AST → Nat
  | .Name .. | .Num .. | .Str .. | .NameConstant .. | .removed => 0
  | .Tuple _ elts _ => countUL elts
  | .Starred _ v _ => countU v
  | .Attribute _ v _ _ => countU v
  | .Subscript _ v s _ => countU v + countU s
  | .Index _ v => countU v
  | .Slice _ lo up stp => countUO lo + countUO up + countUO stp
  | .ExtSlice _ dims => countUL dims
  | .Call _ f args kws => countU f + countUL args + countUL kws
  | .keyword _ _ v => countU v
  | .Dict _ ks vs => countUL ks + countUL vs
  | .Assign _ ts v => countUL ts + countU v
  | .AugAssign _ t _ v => countU t + countU v
  | .unknown _ _ c => 1 + countUL c

/-- `countU` over a child list. -/
def countUL : ASTList → Nat
  | .nil => 0
  | .cons a t => countU a + countUL t

/-- `countU` over an optional child. -/
def countUO : OptAST → Nat
  | .noneA => 0
  | .someA a => countU a
end

mutual
/-- A tree is *known* when it contains neither an `unknown` node (no
dedicated handler) nor a `removed` hole: every node of the tree has a
dedicated `visit_` handler. -/
def known : AST → Bool
  | .Name .. | .Num .. | .Str .. | .NameConstant .. => true
  | .Tuple _ elts _ => knownL elts
  | .Starred _ v _ => known v
  | .Attribute _ v _ _ => known v
  | .Subscript _ v s _ => known v && known s
  | .Index _ v => known v
  | .Slice _ lo up stp => knownO lo && knownO up && knownO stp
  | .ExtSlice _ dims => knownL dims
  | .Call _ f args kws => known f && knownL args && knownL kws
  | .keyword _ _ v => known v
  | .Dict _ ks vs => knownL ks && knownL vs
  | .Assign _ ts v => knownL ts && known v
  | .AugAssign _ t _ v => known t && known v
  | .unknown _ _ _ => false
  | .removed => false

/-- `known` over a child list. -/
def knownL : ASTList → Bool
  | .nil => true
  | .cons a t => known a && knownL t

/-- `known` over an optional child. -/
def knownO : OptAST → Bool
  | .noneA => true
  | .someA a => known a
end

mutual
/-- No assignment in the tree both has several targets and a tuple target
(such assignments replicate their right-hand side once per target, see
`visit_Assign`). -/
def noDup : AST → Bool
  | .Name .. | .Num .. | .Str .. | .NameConstant .. | .removed => true
  | .Tuple _ elts _ => noDupL elts
  | .Starred _ v _ => noDup v
  | .Attribute _ v _ _ => noDup v
  | .Subscript _ v s _ => noDup v && noDup s
  | .Index _ v => noDup v
  | .Slice _ lo up stp => noDupO lo && noDupO up && noDupO stp
  | .ExtSlice _ dims => noDupL dims
  | .Call _ f args kws => noDup f && noDupL args && noDupL kws
  | .keyword _ _ v => noDup v
  | .Dict _ ks vs => noDupL ks && noDupL vs
  | .Assign _ ts v =>
      (!anyTupleL ts || decide (lengthL ts ≤ 1)) && noDupL ts && noDup v
  | .AugAssign _ t _ v => noDup t && noDup v
  | .unknown _ _ c => noDupL c

/-- `noDup` over a child list. -/
def noDupL : ASTList → Bool
  | .nil => true
  | .cons a t => noDup a && noDupL t

/-- `noDup` over an optional child. -/
def noDupO : OptAST → Bool
  | .noneA => true
  | .someA a => noDup a
end

mutual
/-- The tree never mentions the reserved identifier `_getattr_` (user code
doing so is rejected by the name policy). -/
def noGA : AST → Bool
  | .Name _ id _ => id ≠ "_getattr_"
  | .Num .. | .Str .. | .NameConstant .. | .removed => true
  | .Tuple _ elts _ => noGAL elts
  | .Starred _ v _ => noGA v
  | .Attribute _ v _ _ => noGA v
  | .Subscript _ v s _ => noGA v && noGA s
  | .Index _ v => noGA v
  | .Slice _ lo up stp => noGAO lo && noGAO up && noGAO stp
  | .ExtSlice _ dims => noGAL dims
  | .Call _ f args kws => noGA f && noGAL args && noGAL kws
  | .keyword _ _ v => noGA v
  | .Dict _ ks vs => noGAL ks && noGAL vs
  | .Assign _ ts v => noGAL ts && noGA v
  | .AugAssign _ t _ v => noGA t && noGA v
  | .unknown _ _ c => noGAL c

/-- `noGA` over a child list. -/
def noGAL : ASTList → Bool
  | .nil => true
  | .cons a t => noGA a && noGAL t

/-- `noGA` over an optional child. -/
def noGAO : OptAST → Bool
  | .noneA => true
  | .someA a => noGA a
end

/-- The string payloads of the `ast.Str` nodes of a list (used to read off
the keys of an unpack-spec mapping). -/
def strKeysL : ASTList → List String
  | .nil => []
  | .cons (.Str _ s) t => s :: strKeysL t
  | .cons _ t => strKeysL t

/-- The keys of a mapping-like literal, as strings. -/
def dictKeysOf : AST → List String
  | .Dict _ ks _ => strKeysL ks
  | _ => []

/-- The child-record list of an unpack spec (the tuple stored under the
first key). -/
def specChilds : AST → ASTList
  | .Dict _ _ (.cons (.Tuple _ cs _) _) => cs
  | _ => .nil

/-- The `min_len` of an unpack spec (the number stored under the second
key). -/
def specMinLen : AST → Int
  | .Dict _ _ (.cons _ (.cons (.Num _ n) _)) => n
  | _ => 0

/-- Reference formulation of the unpack-spec child records, following the
specification's words: walk the elements with a flag recording whether a
starred element has been seen; a tuple element at position `idx` emits the
record `(idx - offset, spec)` where `offset` is `0` before any starred
element and `min_len + 1` after one; other elements emit nothing. -/
def specChildrenRef (min_len : Nat) (starSeen : Bool) (idx : Nat) : ASTList → ASTList
  | .nil => .nil
  | .cons v rest =>
    if is_starred v then specChildrenRef min_len true (idx + 1) rest
    else if isTuple v then
      .cons
        (.Tuple none
          (.cons (.Num none ((idx : Int) - (if starSeen then (min_len : Int) + 1 else 0)))
            (.cons (gen_unpack_spec v) .nil)) .Load)
        (specChildrenRef min_len starSeen (idx + 1) rest)
    else specChildrenRef min_len starSeen (idx + 1) rest

/-! ## Helper lemmas -/

/-! Constructor equations for the non-recursive observation functions
(stated as simp lemmas so that rewriting never delta-unfolds them into
matches over non-constructor scrutinees). -/

@[simp] theorem isGA_Name (l : Option Nat) (id : String) (c : Ctx) : isGA (.Name l id c) = decide (id = "_getattr_") := rfl
@[simp] theorem isGA_Num (l : Option Nat) (n : Int) : isGA (.Num l n) = false := rfl
@[simp] theorem isGA_Str (l : Option Nat) (s : String) : isGA (.Str l s) = false := rfl
@[simp] theorem isGA_NameConstant (l : Option Nat) (v : Option Bool) : isGA (.NameConstant l v) = false := rfl
@[simp] theorem isGA_Tuple (l : Option Nat) (elts : ASTList) (c : Ctx) : isGA (.Tuple l elts c) = false := rfl
@[simp] theorem isGA_Starred (l : Option Nat) (v : AST) (c : Ctx) : isGA (.Starred l v c) = false := rfl
@[simp] theorem isGA_Attribute (l : Option Nat) (v : AST) (a : String) (c : Ctx) : isGA (.Attribute l v a c) = false := rfl
@[simp] theorem isGA_Subscript (l : Option Nat) (v : AST) (s : AST) (c : Ctx) : isGA (.Subscript l v s c) = false := rfl
@[simp] theorem isGA_Index (l : Option Nat) (v : AST) : isGA (.Index l v) = false := rfl
@[simp] theorem isGA_Slice (l : Option Nat) (lo up stp : OptAST) : isGA (.Slice l lo up stp) = false := rfl
@[simp] theorem isGA_ExtSlice (l : Option Nat) (dims : ASTList) : isGA (.ExtSlice l dims) = false := rfl
@[simp] theorem isGA_Call (l : Option Nat) (f : AST) (args kws : ASTList) : isGA (.Call l f args kws) = false := rfl
@[simp] theorem isGA_keyword (l : Option Nat) (a : Option String) (v : AST) : isGA (.keyword l a v) = false := rfl
@[simp] theorem isGA_Dict (l : Option Nat) (ks vs : ASTList) : isGA (.Dict l ks vs) = false := rfl
@[simp] theorem isGA_Assign (l : Option Nat) (ts : ASTList) (v : AST) : isGA (.Assign l ts v) = false := rfl
@[simp] theorem isGA_AugAssign (l : Option Nat) (t : AST) (op : IOp) (v : AST) : isGA (.AugAssign l t op v) = false := rfl
@[simp] theorem isGA_unknown (l : Option Nat) (k : String) (ch : ASTList) : isGA (.unknown l k ch) = false := rfl
@[simp] theorem isGA_removed : isGA (.removed) = false := rfl

@[simp] theorem isTuple_Name (l : Option Nat) (id : String) (c : Ctx) : isTuple (.Name l id c) = false := rfl
@[simp] theorem isTuple_Num (l : Option Nat) (n : Int) : isTuple (.Num l n) = false := rfl
@[simp] theorem isTuple_Str (l : Option Nat) (s : String) : isTuple (.Str l s) = false := rfl
@[simp] theorem isTuple_NameConstant (l : Option Nat) (v : Option Bool) : isTuple (.NameConstant l v) = false := rfl
@[simp] theorem isTuple_Tuple (l : Option Nat) (elts : ASTList) (c : Ctx) : isTuple (.Tuple l elts c) = true := rfl
@[simp] theorem isTuple_Starred (l : Option Nat) (v : AST) (c : Ctx) : isTuple (.Starred l v c) = false := rfl
@[simp] theorem isTuple_Attribute (l : Option Nat) (v : AST) (a : String) (c : Ctx) : isTuple (.Attribute l v a c) = false := rfl
@[simp] theorem isTuple_Subscript (l : Option Nat) (v : AST) (s : AST) (c : Ctx) : isTuple (.Subscript l v s c) = false := rfl
@[simp] theorem isTuple_Index (l : Option Nat) (v : AST) : isTuple (.Index l v) = false := rfl
@[simp] theorem isTuple_Slice (l : Option Nat) (lo up stp : OptAST) : isTuple (.Slice l lo up stp) = false := rfl
@[simp] theorem isTuple_ExtSlice (l : Option Nat) (dims : ASTList) : isTuple (.ExtSlice l dims) = false := rfl
@[simp] theorem isTuple_Call (l : Option Nat) (f : AST) (args kws : ASTList) : isTuple (.Call l f args kws) = false := rfl
@[simp] theorem isTuple_keyword (l : Option Nat) (a : Option String) (v : AST) : isTuple (.keyword l a v) = false := rfl
@[simp] theorem isTuple_Dict (l : Option Nat) (ks vs : ASTList) : isTuple (.Dict l ks vs) = false := rfl
@[simp] theorem isTuple_Assign (l : Option Nat) (ts : ASTList) (v : AST) : isTuple (.Assign l ts v) = false := rfl
@[simp] theorem isTuple_AugAssign (l : Option Nat) (t : AST) (op : IOp) (v : AST) : isTuple (.AugAssign l t op v) = false := rfl
@[simp] theorem isTuple_unknown (l : Option Nat) (k : String) (ch : ASTList) : isTuple (.unknown l k ch) = false := rfl
@[simp] theorem isTuple_removed : isTuple (.removed) = false := rfl

@[simp] theorem is_starred_Name (l : Option Nat) (id : String) (c : Ctx) : is_starred (.Name l id c) = false := rfl
@[simp] theorem is_starred_Num (l : Option Nat) (n : Int) : is_starred (.Num l n) = false := rfl
@[simp] theorem is_starred_Str (l : Option Nat) (s : String) : is_starred (.Str l s) = false := rfl
@[simp] theorem is_starred_NameConstant (l : Option Nat) (v : Option Bool) : is_starred (.NameConstant l v) = false := rfl
@[simp] theorem is_starred_Tuple (l : Option Nat) (elts : ASTList) (c : Ctx) : is_starred (.Tuple l elts c) = false := rfl
@[simp] theorem is_starred_Starred (l : Option Nat) (v : AST) (c : Ctx) : is_starred (.Starred l v c) = true := rfl
@[simp] theorem is_starred_Attribute (l : Option Nat) (v : AST) (a : String) (c : Ctx) : is_starred (.Attribute l v a c) = false := rfl
@[simp] theorem is_starred_Subscript (l : Option Nat) (v : AST) (s : AST) (c : Ctx) : is_starred (.Subscript l v s c) = false := rfl
@[simp] theorem is_starred_Index (l : Option Nat) (v : AST) : is_starred (.Index l v) = false := rfl
@[simp] theorem is_starred_Slice (l : Option Nat) (lo up stp : OptAST) : is_starred (.Slice l lo up stp) = false := rfl
@[simp] theorem is_starred_ExtSlice (l : Option Nat) (dims : ASTList) : is_starred (.ExtSlice l dims) = false := rfl
@[simp] theorem is_starred_Call (l : Option Nat) (f : AST) (args kws : ASTList) : is_starred (.Call l f args kws) = false := rfl
@[simp] theorem is_starred_keyword (l : Option Nat) (a : Option String) (v : AST) : is_starred (.keyword l a v) = false := rfl
@[simp] theorem is_starred_Dict (l : Option Nat) (ks vs : ASTList) : is_starred (.Dict l ks vs) = false := rfl
@[simp] theorem is_starred_Assign (l : Option Nat) (ts : ASTList) (v : AST) : is_starred (.Assign l ts v) = false := rfl
@[simp] theorem is_starred_AugAssign (l : Option Nat) (t : AST) (op : IOp) (v : AST) : is_starred (.AugAssign l t op v) = false := rfl
@[simp] theorem is_starred_unknown (l : Option Nat) (k : String) (ch : ASTList) : is_starred (.unknown l k ch) = false := rfl
@[simp] theorem is_starred_removed : is_starred (.removed) = false := rfl


theorem stripLines_withLineno (a : AST) (l : Option Nat) :
    stripLines (withLineno a l) = stripLines a := by
  cases a <;> rfl

mutual
theorem stripLines_fix (n : Nat) (a : AST) :
    stripLines (fix_missing n a) = stripLines a := by
  cases a with
  | Name l id ctx => rfl
  | Num l m => rfl
  | Str l s => rfl
  | NameConstant l v => rfl
  | Tuple l elts ctx =>
      simp only [fix_missing, stripLines, stripLinesL_fix (l.getD n) elts]
  | Starred l v ctx =>
      simp only [fix_missing, stripLines, stripLines_fix (l.getD n) v]
  | Attribute l v attr ctx =>
      simp only [fix_missing, stripLines, stripLines_fix (l.getD n) v]
  | Subscript l v s ctx =>
      simp only [fix_missing, stripLines, stripLines_fix (l.getD n) v,
        stripLines_fix (l.getD n) s]
  | Index l v =>
      simp only [fix_missing, stripLines, stripLines_fix (l.getD n) v]
  | Slice l lo up stp =>
      simp only [fix_missing, stripLines, stripLinesO_fix (l.getD n) lo,
        stripLinesO_fix (l.getD n) up, stripLinesO_fix (l.getD n) stp]
  | ExtSlice l dims =>
      simp only [fix_missing, stripLines, stripLinesL_fix (l.getD n) dims]
  | Call l f args kws =>
      simp only [fix_missing, stripLines, stripLines_fix (l.getD n) f,
        stripLinesL_fix (l.getD n) args, stripLinesL_fix (l.getD n) kws]
  | keyword l a v =>
      simp only [fix_missing, stripLines, stripLines_fix (l.getD n) v]
  | Dict l ks vs =>
      simp only [fix_missing, stripLines, stripLinesL_fix (l.getD n) ks,
        stripLinesL_fix (l.getD n) vs]
  | Assign l ts v =>
      simp only [fix_missing, stripLines, stripLinesL_fix (l.getD n) ts,
        stripLines_fix (l.getD n) v]
  | AugAssign l t op v =>
      simp only [fix_missing, stripLines, stripLines_fix (l.getD n) t,
        stripLines_fix (l.getD n) v]
  | unknown l k c =>
      simp only [fix_missing, stripLines, stripLinesL_fix (l.getD n) c]
  | removed => rfl

theorem stripLinesL_fix (n : Nat) (l : ASTList) :
    stripLinesL (fix_missingL n l) = stripLinesL l := by
  cases l with
  | nil => rfl
  | cons a t =>
      simp only [fix_missingL, stripLinesL, stripLines_fix n a, stripLinesL_fix n t]

theorem stripLinesO_fix (n : Nat) (o : OptAST) :
    stripLinesO (fix_missingO n o) = stripLinesO o := by
  cases o with
  | noneA => rfl
  | someA a => simp only [fix_missingO, stripLinesO, stripLines_fix n a]
end

theorem stripLines_copy (new_node old_node : AST) :
    stripLines (copy_locations new_node old_node) = stripLines new_node := by
  simp only [copy_locations, stripLines_fix, stripLines_withLineno]

theorem isTuple_fix (n : Nat) (a : AST) : isTuple (fix_missing n a) = isTuple a := by
  cases a <;> rfl

theorem isTuple_withLineno (a : AST) (l : Option Nat) :
    isTuple (withLineno a l) = isTuple a := by
  cases a <;> rfl

theorem isTuple_copy (new_node old_node : AST) :
    isTuple (copy_locations new_node old_node) = isTuple new_node := by
  simp only [copy_locations, isTuple_fix, isTuple_withLineno]

theorem isGA_fix (n : Nat) (a : AST) : isGA (fix_missing n a) = isGA a := by
  cases a <;> rfl

theorem isGA_withLineno (a : AST) (l : Option Nat) :
    isGA (withLineno a l) = isGA a := by
  cases a <;> rfl

theorem isGA_copy (new_node old_node : AST) :
    isGA (copy_locations new_node old_node) = isGA new_node := by
  simp only [copy_locations, isGA_fix, isGA_withLineno]

/-- The offset-threading loop of `gen_unpack_spec` agrees with the
specification's description: offset `0` corresponds to no starred element
seen yet, offset `min_len + 1` to a starred element seen. -/
theorem spec_children_eq_ref (elts : ASTList) (min_len idx : Nat) (starSeen : Bool) :
    spec_children elts min_len idx (if starSeen then min_len + 1 else 0)
      = specChildrenRef min_len starSeen idx elts := by
  have harith : ((if starSeen then min_len + 1 else 0 : Nat) : Int)
      = if starSeen then (min_len : Int) + 1 else 0 := by
    cases starSeen <;> simp
  cases elts with
  | nil => cases starSeen <;> rfl
  | cons v rest =>
    cases v <;>
      first
      | -- the starred element: switch the offset to min_len + 1
        (show spec_children _ _ _ _ = _
         simp only [spec_children, specChildrenRef, is_starred, if_true]
         have h := spec_children_eq_ref rest min_len (idx + 1) true
         rw [if_pos rfl] at h
         exact h)
      | -- a nested tuple element: one child record, index idx - offset
        (show spec_children _ _ _ _ = _
         simp only [spec_children, specChildrenRef, is_starred, isTuple,
           Bool.false_eq_true, if_false, if_true, harith]
         exact congrArg _ (spec_children_eq_ref rest min_len (idx + 1) starSeen))
      | -- any other element: no child record
        (show spec_children _ _ _ _ = _
         simp only [spec_children, specChildrenRef, is_starred, isTuple,
           Bool.false_eq_true, if_false]
         exact spec_children_eq_ref rest min_len (idx + 1) starSeen)

/-! ## The claims -/

/-- C1, counterexample: for an unrecognized node kind `Spam` at line 1 the
transformer does record one warning and one error, but the warning message
is `"Spam statement is not known to RestrictedPython"` — not
`"Spam statement is not known"` as claimed — and both diagnostics carry a
`"Line 1: "` prefix, the error one a trailing period. -/
theorem claim1_counterexample :
    (visit st0 (.unknown (some 1) "Spam" .nil)).1.warnings
        = ["Line 1: Spam statement is not known to RestrictedPython"] ∧
    "Spam statement is not known" ∉ (visit st0 (.unknown (some 1) "Spam" .nil)).1.warnings ∧
    "Line 1: Spam statement is not known"
        ∉ (visit st0 (.unknown (some 1) "Spam" .nil)).1.warnings ∧
    (visit st0 (.unknown (some 1) "Spam" .nil)).1.errors
        = ["Line 1: Spam statements are not allowed."] ∧
    "Spam statements are not allowed" ∉ (visit st0 (.unknown (some 1) "Spam" .nil)).1.errors := by
  refine ⟨rfl, ?_, ?_, rfl, ?_⟩ <;> decide

/-- C1, amended: for every node kind without a dedicated `visit_` handler the
default handler records exactly one warning
`"Line L: <Kind> statement is not known to RestrictedPython"` and exactly one
error `"Line L: <Kind> statements are not allowed."`, changes nothing else in
the transformer state, and returns normally (with no replacement node). -/
theorem claim1_theorem (st : TState) (l : Option Nat) (kind : String)
    (children : ASTList) :
    visit st (.unknown l kind children)
      = ({ st with
            warnings := st.warnings
              ++ ["Line " ++ lineStr l ++ ": "
                  ++ (kind ++ " statement is not known to RestrictedPython")],
            errors := st.errors
              ++ ["Line " ++ lineStr l ++ ": "
                  ++ (kind ++ " statements are not allowed.")] }, .nil) := rfl

/-- C3: for every tuple target, the unpack spec's `min_len` is the number of
non-starred elements, and its child records are exactly those described by
the specification: one record per tuple element, indexed by `i - offset`
where `offset` is `0` before any starred element and `min_len + 1` after
one; plain (and starred) elements emit no record. -/
theorem claim3_theorem (l : Option Nat) (elts : ASTList) (c : Ctx) :
    specMinLen (gen_unpack_spec (.Tuple l elts c)) = (countNonStarred elts : Int) ∧
    specChilds (gen_unpack_spec (.Tuple l elts c))
      = specChildrenRef (countNonStarred elts) false 0 elts := by
  refine ⟨rfl, ?_⟩
  show spec_children elts (countNonStarred elts) 0 0
      = specChildrenRef (countNonStarred elts) false 0 elts
  exact spec_children_eq_ref elts (countNonStarred elts) 0 false

/-- C4, counterexample: the unpack-spec mapping built for the empty tuple
target has keys `"childs"` and `"min_len"` — not `"children"` and
`"min_len"` as claimed. -/
theorem claim4_counterexample :
    dictKeysOf (gen_unpack_spec (.Tuple (some 1) .nil .Store)) = ["childs", "min_len"] ∧
    dictKeysOf (gen_unpack_spec (.Tuple (some 1) .nil .Store)) ≠ ["children", "min_len"] := by
  exact ⟨rfl, by decide⟩

/-- C4, amended: for every sequence target the unpack-spec builder emits a
mapping-like literal whose keys are exactly the strings `"childs"` and
`"min_len"`, in that order. -/
theorem claim4_theorem (l : Option Nat) (elts : ASTList) (c : Ctx) :
    dictKeysOf (gen_unpack_spec (.Tuple l elts c)) = ["childs", "min_len"] := rfl

/-- C5: `check_name` records exactly one error exactly when the name begins
with `_` and is not `_`, or ends with `__roles__`, or equals `print`, or
equals `printed`; otherwise (and for an absent name) the state is returned
untouched. -/
theorem claim5_theorem (st : TState) (l : Option Nat) (n : String) :
    check_name st l none = st ∧
    ((∃ m, check_name st l (some n) = { st with errors := st.errors ++ [m] }) ↔
      ((startswith n "_" ∧ n ≠ "_") ∨ endswith n "__roles__" = true
        ∨ n = "print" ∨ n = "printed")) ∧
    (check_name st l (some n) = st ↔
      ¬((startswith n "_" ∧ n ≠ "_") ∨ endswith n "__roles__" = true
        ∨ n = "print" ∨ n = "printed")) := by
  have hne : ∀ (m : String), ({ st with errors := st.errors ++ [m] } : TState) ≠ st := by
    intro m h
    have h2 := congrArg TState.errors h
    simp at h2
  have hchain :
      (((startswith n "_" ∧ n ≠ "_") ∨ endswith n "__roles__" = true
          ∨ n = "print" ∨ n = "printed") ∧
        ∃ m, check_name st l (some n) = { st with errors := st.errors ++ [m] }) ∨
      (¬((startswith n "_" ∧ n ≠ "_") ∨ endswith n "__roles__" = true
          ∨ n = "print" ∨ n = "printed") ∧
        check_name st l (some n) = st) := by
    by_cases h1 : startswith n "_" ∧ n ≠ "_"
    · exact Or.inl ⟨Or.inl h1, _, by show (if _ then _ else _) = _; rw [if_pos h1]; rfl⟩
    · by_cases h2 : endswith n "__roles__" = true
      · exact Or.inl ⟨Or.inr (Or.inl h2), _,
          by show (if _ then _ else _) = _; rw [if_neg h1, if_pos h2]; rfl⟩
      · by_cases h3 : n = "printed"
        · exact Or.inl ⟨Or.inr (Or.inr (Or.inr h3)), _,
            by show (if _ then _ else _) = _; rw [if_neg h1, if_neg h2, if_pos h3]; rfl⟩
        · by_cases h4 : n = "print"
          · exact Or.inl ⟨Or.inr (Or.inr (Or.inl h4)), _,
              by show (if _ then _ else _) = _
                 rw [if_neg h1, if_neg h2, if_neg h3, if_pos h4]; rfl⟩
          · refine Or.inr ⟨?_, ?_⟩
            · rintro (h | h | h | h) <;> contradiction
            · show (if _ then _ else _) = _
              rw [if_neg h1, if_neg h2, if_neg h3, if_neg h4]
  refine ⟨rfl, ?_, ?_⟩
  · constructor
    · rintro ⟨m, hm⟩
      rcases hchain with ⟨hd, _⟩ | ⟨_, heq⟩
      · exact hd
      · rw [heq] at hm
        exact absurd hm.symm (hne m)
    · intro hd
      rcases hchain with ⟨_, hex⟩ | ⟨hnd, _⟩
      · exact hex
      · exact absurd hd hnd
  · constructor
    · intro heq
      rcases hchain with ⟨_, m, hm⟩ | ⟨hnd, _⟩
      · rw [heq] at hm
        exact absurd hm.symm (hne m)
      · exact hnd
    · intro hnd
      rcases hchain with ⟨hd, _⟩ | ⟨_, heq⟩
      · exact absurd hd hnd
      · exact heq

/-- C6: for an augmented assignment, an attribute target yields the error
"Augmented assignment of attributes is not allowed." and the node stays an
augmented assignment; a subscript target yields the error "Augmented
assignment of object items and slices is not allowed." and the node stays an
augmented assignment; a name target is rewritten to
`target = _inplacevar_("op=", target, value)` with the textual operator
token. -/
theorem claim6_theorem :
    (∀ (st stB st2 : TState) (l : Option Nat) (tgt : AST) (op : IOp) (v : AST)
        (la : Option Nat) (w : AST) (attr : String) (actx : Ctx) (v' : AST),
      visit st tgt = (stB, single (.Attribute la w attr actx)) →
      visit stB v = (st2, single v') →
      visit st (.AugAssign l tgt op v)
        = (error st2 l "Augmented assignment of attributes is not allowed.",
           single (.AugAssign l (.Attribute la w attr actx) op v'))) ∧
    (∀ (st stB st2 : TState) (l : Option Nat) (tgt : AST) (op : IOp) (v : AST)
        (la : Option Nat) (w s : AST) (sctx : Ctx) (v' : AST),
      visit st tgt = (stB, single (.Subscript la w s sctx)) →
      visit stB v = (st2, single v') →
      visit st (.AugAssign l tgt op v)
        = (error st2 l "Augmented assignment of object items and slices is not allowed.",
           single (.AugAssign l (.Subscript la w s sctx) op v'))) ∧
    (∀ (st stB st2 : TState) (l : Option Nat) (tgt : AST) (op : IOp) (v : AST)
        (ln : Option Nat) (id : String) (nctx : Ctx) (v' : AST),
      visit st tgt = (stB, single (.Name ln id nctx)) →
      visit stB v = (st2, single v') →
      (visit st (.AugAssign l tgt op v)).1 = st2 ∧
      stripLinesL (visit st (.AugAssign l tgt op v)).2
        = single (.Assign none (.cons (.Name none id nctx) .nil)
            (.Call none (.Name none "_inplacevar_" .Load)
              (.cons (.Str none (IOPERATOR_TO_STR op))
                (.cons (.Name none id .Load) (.cons (stripLines v') .nil))) .nil))) := by
  refine ⟨?_, ?_, ?_⟩
  · intro st stB st2 l tgt op v la w attr actx v' h1 h2
    simp only [visit, h1, h2, first1, single]
  · intro st stB st2 l tgt op v la w s sctx v' h1 h2
    simp only [visit, h1, h2, first1, single]
  · intro st stB st2 l tgt op v ln id nctx v' h1 h2
    simp only [visit, h1, h2, first1, single]
    refine ⟨trivial, ?_⟩
    simp only [stripLinesL, stripLines_copy, stripLines_fix, stripLinesL_fix,
      stripLinesO_fix, stripLines_withLineno, stripLines, stripLinesO]

/-- C6, witness: `n += 1` becomes `n = _inplacevar_("+=", n, 1)`, and
`a.b += 1` / `a[0] += 1` record the two errors while staying augmented
assignments. -/
theorem claim6_witness :
    (visit st0 (.AugAssign (some 1) (.Attribute (some 1) (.Name (some 1) "a" .Load) "b" .Store)
        .Add (.Num (some 1) 1))
      = (error { st0 with used_names := ["a"] } (some 1)
           "Augmented assignment of attributes is not allowed.",
         single (.AugAssign (some 1)
           (.Attribute (some 1)
             (.Call (some 1) (.Name (some 1) "_write_" .Load)
               (.cons (.Name (some 1) "a" .Load) .nil) .nil) "b" .Store)
           .Add (.Num (some 1) 1)))) ∧
    (stripLinesL (visit st0 (.AugAssign (some 1) (.Name (some 1) "n" .Store) .Add
        (.Num (some 1) 1))).2
      = single (.Assign none (.cons (.Name none "n" .Store) .nil)
          (.Call none (.Name none "_inplacevar_" .Load)
            (.cons (.Str none "+=")
              (.cons (.Name none "n" .Load) (.cons (.Num none 1) .nil))) .nil))) := by
  constructor
  · exact claim6_theorem.1 st0 { st0 with used_names := ["a"] }
      { st0 with used_names := ["a"] } (some 1)
      (.Attribute (some 1) (.Name (some 1) "a" .Load) "b" .Store) .Add (.Num (some 1) 1)
      (some 1)
      (.Call (some 1) (.Name (some 1) "_write_" .Load)
        (.cons (.Name (some 1) "a" .Load) .nil) .nil) "b" .Store (.Num (some 1) 1)
      (by rfl) (by rfl)
  · exact (claim6_theorem.2.2 st0 st0 st0 (some 1) (.Name (some 1) "n" .Store) .Add
      (.Num (some 1) 1) (some 1) "n" .Store (.Num (some 1) 1) (by rfl) (by rfl)).2

/-- C7: a subscript read whose slice is a (possibly bounded, possibly
stepped) slice becomes `_getitem_(obj, slice(a, b, c))` where each absent
bound is replaced by the none literal (`boundArg` maps an absent bound to
`gen_none_node`). -/
theorem claim7_theorem (st st1 st2 st3 st4 : TState) (l ls : Option Nat) (value : AST)
    (lo up stp : OptAST) (v' : AST) (lo' up' stp' : OptAST)
    (hv : visit st value = (st1, single v'))
    (hlo : visitOpt st1 lo = (st2, lo'))
    (hup : visitOpt st2 up = (st3, up'))
    (hstp : visitOpt st3 stp = (st4, stp')) :
    (visit st (.Subscript l value (.Slice ls lo up stp) .Load)).1 = st4 ∧
    stripLinesL (visit st (.Subscript l value (.Slice ls lo up stp) .Load)).2
      = single (.Call none (.Name none "_getitem_" .Load)
          (.cons (stripLines v')
            (.cons (.Call none (.Name none "slice" .Load)
              (.cons (stripLines (boundArg lo'))
                (.cons (stripLines (boundArg up'))
                  (.cons (stripLines (boundArg stp')) .nil))) .nil) .nil)) .nil) := by
  simp only [visit, hv, hlo, hup, hstp, first1, single]
  refine ⟨trivial, ?_⟩
  simp only [stripLinesL, stripLines_copy, stripLines_fix, stripLinesL_fix,
    stripLinesO_fix, stripLines_withLineno, stripLines, stripLinesO, transform_slice]

/-- C7, witness: the boundless slice `a[:]` produces
`_getitem_(a, slice(None, None, None))`. -/
theorem claim7_witness :
    (visit st0 (.Subscript (some 1) (.Name (some 1) "a" .Load)
        (.Slice (some 1) .noneA .noneA .noneA) .Load)).1
      = { st0 with used_names := ["a"] } ∧
    stripLinesL (visit st0 (.Subscript (some 1) (.Name (some 1) "a" .Load)
        (.Slice (some 1) .noneA .noneA .noneA) .Load)).2
      = single (.Call none (.Name none "_getitem_" .Load)
          (.cons (.Name none "a" .Load)
            (.cons (.Call none (.Name none "slice" .Load)
              (.cons (.NameConstant none none)
                (.cons (.NameConstant none none)
                  (.cons (.NameConstant none none) .nil))) .nil) .nil)) .nil) :=
  claim7_theorem st0 { st0 with used_names := ["a"] } { st0 with used_names := ["a"] }
    { st0 with used_names := ["a"] } { st0 with used_names := ["a"] }
    (some 1) (some 1) (.Name (some 1) "a" .Load) .noneA .noneA .noneA
    (.Name (some 1) "a" .Load) .noneA .noneA .noneA
    (by rfl) (by rfl) (by rfl) (by rfl)

/-- C8, counterexample: for `a = b = c = 1` — three plain name targets — the
transformer emits the assignment unchanged as one statement with three
targets, not three separate assignment statements. -/
theorem claim8_counterexample :
    (visit st0 (.Assign (some 1)
        (.cons (.Name (some 1) "a" .Store)
          (.cons (.Name (some 1) "b" .Store) (.cons (.Name (some 1) "c" .Store) .nil)))
        (.Num (some 1) 1))).2
      = single (.Assign (some 1)
          (.cons (.Name (some 1) "a" .Store)
            (.cons (.Name (some 1) "b" .Store) (.cons (.Name (some 1) "c" .Store) .nil)))
          (.Num (some 1) 1)) ∧
    lengthL (visit st0 (.Assign (some 1)
        (.cons (.Name (some 1) "a" .Store)
          (.cons (.Name (some 1) "b" .Store) (.cons (.Name (some 1) "c" .Store) .nil)))
        (.Num (some 1) 1))).2 = 1 := ⟨rfl, rfl⟩

/-- C8, amended: the per-target split only happens when some target is a
sequence pattern; for `a = b = (c, d) = expr` the transformer emits one
assignment per target, right-most target first (the tuple target, guarded
by `_unpack_sequence_`, comes first, then `b`, then `a`). -/
theorem claim8_theorem (st st' : TState) (l l1 l2 l3 l4 l5 : Option Nat) (v v' : AST)
    (h : visit st v = (st', single v')) :
    (visit st (.Assign l
        (.cons (.Name l1 "a" .Store)
          (.cons (.Name l2 "b" .Store)
            (.cons (.Tuple l3 (.cons (.Name l4 "c" .Store) (.cons (.Name l5 "d" .Store) .nil))
              .Store) .nil))) v)).1 = st' ∧
    stripLinesL (visit st (.Assign l
        (.cons (.Name l1 "a" .Store)
          (.cons (.Name l2 "b" .Store)
            (.cons (.Tuple l3 (.cons (.Name l4 "c" .Store) (.cons (.Name l5 "d" .Store) .nil))
              .Store) .nil))) v)).2
      = .cons (.Assign none
            (.cons (.Tuple none (.cons (.Name none "c" .Store) (.cons (.Name none "d" .Store) .nil))
              .Store) .nil)
            (.Call none (.Name none "_unpack_sequence_" .Load)
              (.cons (stripLines v')
                (.cons (.Dict none
                    (.cons (.Str none "childs") (.cons (.Str none "min_len") .nil))
                    (.cons (.Tuple none .nil .Load) (.cons (.Num none 2) .nil)))
                  (.cons (.Name none "_getiter_" .Load) .nil))) .nil))
          (.cons (.Assign none (.cons (.Name none "b" .Store) .nil) (stripLines v'))
            (.cons (.Assign none (.cons (.Name none "a" .Store) .nil) (stripLines v')) .nil)) := by
  have hT : visitL st
      (.cons (.Name l1 "a" .Store)
        (.cons (.Name l2 "b" .Store)
          (.cons (.Tuple l3 (.cons (.Name l4 "c" .Store) (.cons (.Name l5 "d" .Store) .nil))
            .Store) .nil))) =
      (st, (.cons (.Name l1 "a" .Store)
        (.cons (.Name l2 "b" .Store)
          (.cons (.Tuple l3 (.cons (.Name l4 "c" .Store) (.cons (.Name l5 "d" .Store) .nil))
            .Store) .nil)))) := rfl
  simp only [visit, hT, h, first1, single]
  refine ⟨rfl, ?_⟩
  simp only [ASTList.reverseL, ASTList.appendL, mk_assigns, isTuple,
    protect_unpack_sequence, gen_unpack_spec, spec_children, countNonStarred, is_starred,
    stripLinesL, stripLines_copy, stripLines_fix, stripLinesL_fix, stripLinesO_fix,
    stripLines_withLineno, stripLines, stripLinesO, if_true, if_false,
    Bool.false_eq_true]
  norm_num

/-- C8, witness: instantiate the amended split theorem at `a = b = (c, d) = 1`. -/
theorem claim8_witness :
    stripLinesL (visit st0 (.Assign (some 1)
        (.cons (.Name (some 1) "a" .Store)
          (.cons (.Name (some 1) "b" .Store)
            (.cons (.Tuple (some 1)
              (.cons (.Name (some 1) "c" .Store) (.cons (.Name (some 1) "d" .Store) .nil))
              .Store) .nil))) (.Num (some 1) 1))).2
      = .cons (.Assign none
            (.cons (.Tuple none
              (.cons (.Name none "c" .Store) (.cons (.Name none "d" .Store) .nil))
              .Store) .nil)
            (.Call none (.Name none "_unpack_sequence_" .Load)
              (.cons (.Num none 1)
                (.cons (.Dict none
                    (.cons (.Str none "childs") (.cons (.Str none "min_len") .nil))
                    (.cons (.Tuple none .nil .Load) (.cons (.Num none 2) .nil)))
                  (.cons (.Name none "_getiter_" .Load) .nil))) .nil))
          (.cons (.Assign none (.cons (.Name none "b" .Store) .nil) (.Num none 1))
            (.cons (.Assign none (.cons (.Name none "a" .Store) .nil) (.Num none 1)) .nil)) :=
  (claim8_theorem st0 st0 (some 1) (some 1) (some 1) (some 1) (some 1) (some 1)
    (.Num (some 1) 1) (.Num (some 1) 1) (by rfl)).2

/-- C9, counterexample: the attribute access `obj._` (attribute name exactly
`_`, load context) records no error at all — the bare-underscore rejection
exempts the name `_` for attributes just as for identifiers — and the access
is rewritten to `_getattr_(obj, "_")`. -/
theorem claim9_counterexample :
    (visit st0 (.Attribute (some 1) (.Name (some 1) "obj" .Load) "_" .Load)).1.errors = [] ∧
    (visit st0 (.Attribute (some 1) (.Name (some 1) "obj" .Load) "_" .Load)).2
      = single (.Call (some 1) (.Name (some 1) "_getattr_" .Load)
          (.cons (.Name (some 1) "obj" .Load) (.cons (.Str (some 1) "_") .nil)) .nil) :=
  ⟨rfl, rfl⟩

/-- C9, amended: an attribute access whose attribute name is exactly `_` is
accepted: the attribute-name checks leave the state untouched and the access
is rewritten to `_getattr_(obj, "_")` as usual. -/
theorem claim9_theorem (st st1 : TState) (l : Option Nat) (value v' : AST)
    (h : visit st value = (st1, single v')) :
    check_attr_name st l "_" = st ∧
    (visit st (.Attribute l value "_" .Load)).1 = st1 ∧
    stripLinesL (visit st (.Attribute l value "_" .Load)).2
      = single (.Call none (.Name none "_getattr_" .Load)
          (.cons (stripLines v') (.cons (.Str none "_") .nil)) .nil) := by
  have hca : check_attr_name st l "_" = st := rfl
  refine ⟨hca, ?_⟩
  simp only [visit, hca, h, first1, single]
  refine ⟨trivial, ?_⟩
  simp only [stripLinesL, stripLines_copy, stripLines_fix, stripLinesL_fix,
    stripLinesO_fix, stripLines_withLineno, stripLines, stripLinesO]

/-! ### No unknown node survives the transformation (for C10) -/

theorem countUL_append (a b : ASTList) :
    countUL (appendL a b) = countUL a + countUL b := by
  cases a with
  | nil => simp [ASTList.appendL, countUL]
  | cons x t =>
      simp only [ASTList.appendL, countUL, countUL_append t b]
      omega

theorem countUL_reverse (l : ASTList) : countUL (reverseL l) = countUL l := by
  cases l with
  | nil => rfl
  | cons a t =>
      simp only [ASTList.reverseL, countUL_append, countUL_reverse t, countUL]
      omega

mutual
theorem countU_fix (n : Nat) (a : AST) : countU (fix_missing n a) = countU a := by
  cases a with
  | Name l id ctx => rfl
  | Num l m => rfl
  | Str l s => rfl
  | NameConstant l v => rfl
  | Tuple l elts ctx => simp only [fix_missing, countU, countUL_fix (l.getD n) elts]
  | Starred l v ctx => simp only [fix_missing, countU, countU_fix (l.getD n) v]
  | Attribute l v attr ctx => simp only [fix_missing, countU, countU_fix (l.getD n) v]
  | Subscript l v s ctx =>
      simp only [fix_missing, countU, countU_fix (l.getD n) v, countU_fix (l.getD n) s]
  | Index l v => simp only [fix_missing, countU, countU_fix (l.getD n) v]
  | Slice l lo up stp =>
      simp only [fix_missing, countU, countUO_fix (l.getD n) lo,
        countUO_fix (l.getD n) up, countUO_fix (l.getD n) stp]
  | ExtSlice l dims => simp only [fix_missing, countU, countUL_fix (l.getD n) dims]
  | Call l f args kws =>
      simp only [fix_missing, countU, countU_fix (l.getD n) f,
        countUL_fix (l.getD n) args, countUL_fix (l.getD n) kws]
  | keyword l a v => simp only [fix_missing, countU, countU_fix (l.getD n) v]
  | Dict l ks vs =>
      simp only [fix_missing, countU, countUL_fix (l.getD n) ks, countUL_fix (l.getD n) vs]
  | Assign l ts v =>
      simp only [fix_missing, countU, countUL_fix (l.getD n) ts, countU_fix (l.getD n) v]
  | AugAssign l t op v =>
      simp only [fix_missing, countU, countU_fix (l.getD n) t, countU_fix (l.getD n) v]
  | unknown l k c => simp only [fix_missing, countU, countUL_fix (l.getD n) c]
  | removed => rfl

theorem countUL_fix (n : Nat) (l : ASTList) : countUL (fix_missingL n l) = countUL l := by
  cases l with
  | nil => rfl
  | cons a t => simp only [fix_missingL, countUL, countU_fix n a, countUL_fix n t]

theorem countUO_fix (n : Nat) (o : OptAST) : countUO (fix_missingO n o) = countUO o := by
  cases o with
  | noneA => rfl
  | someA a => simp only [fix_missingO, countUO, countU_fix n a]
end

theorem countU_withLineno (a : AST) (l : Option Nat) :
    countU (withLineno a l) = countU a := by
  cases a <;> rfl

theorem countU_copy (new_node old_node : AST) :
    countU (copy_locations new_node old_node) = countU new_node := by
  simp only [copy_locations, countU_fix, countU_withLineno]

mutual
theorem countU_spec (t : AST) : countU (gen_unpack_spec t) = 0 := by
  cases t <;>
    first
    | rfl
    | (rename_i l elts c
       simp only [gen_unpack_spec, countU, countUL,
         countUL_spec_children elts (countNonStarred elts) 0 0])

theorem countUL_spec_children (elts : ASTList) (min_len idx offset : Nat) :
    countUL (spec_children elts min_len idx offset) = 0 := by
  cases elts with
  | nil => rfl
  | cons v rest =>
    cases v <;>
      first
      | (simp only [spec_children, is_starred, if_true]
         exact countUL_spec_children rest min_len (idx + 1) (min_len + 1))
      | (rename_i lv ev cv
         simp only [spec_children, is_starred, isTuple, Bool.false_eq_true, if_false,
           countUL, countU, gen_unpack_spec]
         rw [countUL_spec_children ev (countNonStarred ev) 0 0,
           countUL_spec_children rest min_len (idx + 1) offset])
      | (simp only [spec_children, is_starred, Bool.false_eq_true, if_false]
         exact countUL_spec_children rest min_len (idx + 1) offset)
end

theorem countU_first1 (r : ASTList) : countU (first1 r) ≤ countUL r := by
  cases r with
  | nil => simp [first1, countU]
  | cons x t =>
    cases t with
    | nil => simp [first1, countUL]
    | cons y u => simp [first1, countU, countUL]

mutual
theorem countU_transform (s : AST) : countU (transform_slice s) = countU s := by
  cases s with
  | Index l v => rfl
  | Slice l lo up stp =>
      cases lo <;> cases up <;> cases stp <;>
        (simp [transform_slice, boundArg, gen_none_node, countU, countUL, countUO]
         <;> omega)
  | ExtSlice l dims =>
      simp only [transform_slice, countU, countUL_transform dims]
  | _ => rfl

theorem countUL_transform (l : ASTList) :
    countUL (transform_sliceL l) = countUL l := by
  cases l with
  | nil => rfl
  | cons a t =>
      simp only [transform_sliceL, countUL, countU_transform a, countUL_transform t]
end

theorem countUL_mk_assigns (old value : AST) (ts : ASTList)
    (hv : countU value = 0) (ht : countUL ts = 0) :
    countUL (mk_assigns old value ts) = 0 := by
  cases ts with
  | nil => rfl
  | cons target rest =>
    simp only [countUL] at ht
    have h1 : countU target = 0 := by omega
    have h2 : countUL rest = 0 := by omega
    have h3 := countUL_mk_assigns old value rest hv h2
    have h4 := countU_spec target
    by_cases htt : isTuple target
    · simp only [mk_assigns, htt, if_true, countUL, countU_copy, countU,
        protect_unpack_sequence, h4, hv, h1, h3, countU_fix, countU_withLineno]
    · simp only [mk_assigns, htt, Bool.false_eq_true, if_false, countUL, countU_copy,
        countU, hv, h1, h3, countU_fix, countU_withLineno]

/-- `countU (first1 r) = 0` when the whole result list has no unknowns. -/
theorem first1_countU_zero (r : ASTList) (h : countUL r = 0) :
    countU (first1 r) = 0 :=
  Nat.le_zero.mp (h ▸ countU_first1 r)

mutual
/-- No `unknown` node ever survives a visit: the reject-by-default handler
drops the node, and every other handler rebuilds its output from visited
children. -/
theorem visit_countU (st : TState) (e : AST) : countUL (visit st e).2 = 0 := by
  cases e with
  | Num l n => rfl
  | Str l s => rfl
  | NameConstant l v => rfl
  | Name l id ctx =>
    cases ctx with
    | Load =>
      simp only [visit]
      split_ifs <;>
        simp [single, countUL, countU, countU_copy, countU_fix, countU_withLineno,
          countUL_fix]
    | Store => rfl
    | Del => rfl
    | Param => rfl
  | Tuple l elts ctx =>
    have h0 := visitL_countU st elts
    rcases hE : visitL st elts with ⟨st1, elts'⟩
    rw [hE] at h0
    simp only [visit, hE, single, countUL, countU, h0]
  | Starred l v ctx =>
    have h0 := visit_countU st v
    rcases hv : visit st v with ⟨st1, rv⟩
    rw [hv] at h0
    simp only [visit, hv, single, countUL, countU, first1_countU_zero rv h0]
  | Attribute l v attr ctx =>
    cases ctx with
    | Load =>
      have h0 := visit_countU (check_attr_name st l attr) v
      rcases hv : visit (check_attr_name st l attr) v with ⟨st1, rv⟩
      rw [hv] at h0
      simp only [visit, hv, single, countUL, countU, countU_copy, countU_fix,
        countU_withLineno, countUL_fix, first1_countU_zero rv h0]
    | Store =>
      have h0 := visit_countU (check_attr_name st l attr) v
      rcases hv : visit (check_attr_name st l attr) v with ⟨st1, rv⟩
      rw [hv] at h0
      simp only [visit, hv, single, countUL, countU, countU_copy, countU_fix,
        countU_withLineno, countUL_fix, first1_countU_zero rv h0]
    | Del =>
      have h0 := visit_countU (check_attr_name st l attr) v
      rcases hv : visit (check_attr_name st l attr) v with ⟨st1, rv⟩
      rw [hv] at h0
      simp only [visit, hv, single, countUL, countU, countU_copy, countU_fix,
        countU_withLineno, countUL_fix, first1_countU_zero rv h0]
    | Param =>
      have h0 := visit_countU (check_attr_name st l attr) v
      rcases hv : visit (check_attr_name st l attr) v with ⟨st1, rv⟩
      rw [hv] at h0
      simp only [visit, hv, single, countUL, countU, first1_countU_zero rv h0]
  | Subscript l v s ctx =>
    have h0 := visit_countU st v
    rcases hv : visit st v with ⟨st1, rv⟩
    rw [hv] at h0
    have h1 := visit_countU st1 s
    rcases hs : visit st1 s with ⟨st2, rs⟩
    rw [hs] at h1
    cases ctx <;>
      simp only [visit, hv, hs, single, countUL, countU, countU_copy, countU_fix,
        countU_withLineno, countUL_fix, countU_transform,
        first1_countU_zero rv h0, first1_countU_zero rs h1]
  | Index l v =>
    have h0 := visit_countU st v
    rcases hv : visit st v with ⟨st1, rv⟩
    rw [hv] at h0
    simp only [visit, hv, single, countUL, countU, first1_countU_zero rv h0]
  | Slice l lo up stp =>
    have h0 := visitOpt_countU st lo
    rcases hlo : visitOpt st lo with ⟨st1, lo'⟩
    rw [hlo] at h0
    have h1 := visitOpt_countU st1 up
    rcases hup : visitOpt st1 up with ⟨st2, up'⟩
    rw [hup] at h1
    have h2 := visitOpt_countU st2 stp
    rcases hstp : visitOpt st2 stp with ⟨st3, stp'⟩
    rw [hstp] at h2
    simp only [visit, hlo, hup, hstp, single, countUL, countU, h0, h1, h2]
  | ExtSlice l dims =>
    have h0 := visitL_countU st dims
    rcases hE : visitL st dims with ⟨st1, dims'⟩
    rw [hE] at h0
    simp only [visit, hE, single, countUL, countU, h0]
  | Call l f args kws =>
    have h0 := visit_countU (check_exec_eval st l f) f
    rcases hf : visit (check_exec_eval st l f) f with ⟨st1, rf⟩
    rw [hf] at h0
    have h1 := visitL_countU st1 args
    rcases ha : visitL st1 args with ⟨st2, args'⟩
    rw [ha] at h1
    have h2 := visitL_countU st2 kws
    rcases hk : visitL st2 kws with ⟨st3, kws'⟩
    rw [hk] at h2
    by_cases hw : (anyStarred args || anyKwNone kws) = true
    · simp only [visit, hf, ha, hk, hw, if_true, single, countUL, countU,
        countU_copy, countU_fix, countU_withLineno, h1, h2,
        first1_countU_zero rf h0]
    · simp only [visit, hf, ha, hk, hw, Bool.false_eq_true, if_false, single,
        countUL, countU, h1, h2, first1_countU_zero rf h0]
  | keyword l a v =>
    have h0 := visit_countU st v
    rcases hv : visit st v with ⟨st1, rv⟩
    rw [hv] at h0
    simp only [visit, hv, single, countUL, countU, first1_countU_zero rv h0]
  | Dict l ks vs =>
    have h0 := visitL_countU st ks
    rcases hK : visitL st ks with ⟨st1, ks'⟩
    rw [hK] at h0
    have h1 := visitL_countU st1 vs
    rcases hV : visitL st1 vs with ⟨st2, vs'⟩
    rw [hV] at h1
    simp only [visit, hK, hV, single, countUL, countU, h0, h1]
  | Assign l ts v =>
    have h0 := visitL_countU st ts
    rcases hT : visitL st ts with ⟨st1, ts'⟩
    rw [hT] at h0
    have h1 := visit_countU st1 v
    rcases hv : visit st1 v with ⟨st2, rv⟩
    rw [hv] at h1
    have h2 := first1_countU_zero rv h1
    have h3 : countUL (reverseL ts') = 0 := by rw [countUL_reverse]; exact h0
    cases hb : anyTupleL ts' with
    | true =>
      simp only [visit, hT, hv, hb, if_true,
        countUL_mk_assigns (.Assign l ts' (first1 rv)) (first1 rv) (reverseL ts') h2 h3]
    | false =>
      simp only [visit, hT, hv, hb, Bool.false_eq_true, if_false, single, countUL,
        countU, h0, h2]
  | AugAssign l t op v =>
    have h0 := visit_countU st t
    rcases ht : visit st t with ⟨st1, rt⟩
    rw [ht] at h0
    have h1 := visit_countU st1 v
    rcases hv : visit st1 v with ⟨st2, rv⟩
    rw [hv] at h1
    have h2 := first1_countU_zero rt h0
    have h3 := first1_countU_zero rv h1
    cases h' : first1 rt <;>
      (rw [h'] at h2
       simp only [visit, ht, hv, h', single, countUL, countU, countUO, countU_copy,
         countU_fix, countU_withLineno, countUL_fix, h3]
       all_goals first
         | rfl
         | (simp only [countU, countUO, countUL] at h2 <;> omega))
  | unknown l k c => rfl
  | removed => rfl

/-- `visit_countU` over a child list. -/
theorem visitL_countU (st : TState) (l : ASTList) : countUL (visitL st l).2 = 0 := by
  cases l with
  | nil => rfl
  | cons a rest =>
    have h0 := visit_countU st a
    rcases ha : visit st a with ⟨st1, ra⟩
    rw [ha] at h0
    have h1 := visitL_countU st1 rest
    rcases hr : visitL st1 rest with ⟨st2, rrest⟩
    rw [hr] at h1
    simp only [visitL, ha, hr, countUL_append, h0, h1]

/-- `visit_countU` over an optional child. -/
theorem visitOpt_countU (st : TState) (o : OptAST) : countUO (visitOpt st o).2 = 0 := by
  cases o with
  | noneA => rfl
  | someA a =>
    have h0 := visit_countU st a
    rcases ha : visit st a with ⟨st1, ra⟩
    rw [ha] at h0
    simp only [visitOpt, ha, countUO, first1_countU_zero ra h0]
end

/-- C10: the default handler returns no replacement node (the rejected node
is removed from the output entirely), and more generally no node kind
without a dedicated handler ever appears in the output of a visit: the
transformer fails closed while continuing with diagnostics only. -/
theorem claim10_theorem :
    (∀ (st : TState) (l : Option Nat) (kind : String) (children : ASTList),
      (visit st (.unknown l kind children)).2 = .nil) ∧
    (∀ (st : TState) (e : AST), countUL (visit st e).2 = 0) :=
  ⟨fun _ _ _ _ => rfl, fun st e => visit_countU st e⟩

/-! ### Counting `_getattr_` wraps (for C2) -/

theorem countGL_append (a b : ASTList) :
    countGL (appendL a b) = countGL a + countGL b := by
  cases a with
  | nil => simp [ASTList.appendL, countGL]
  | cons x t =>
      simp only [ASTList.appendL, countGL, countGL_append t b]
      omega

mutual
theorem countG_fix (n : Nat) (a : AST) : countG (fix_missing n a) = countG a := by
  cases a with
  | Name l id ctx => rfl
  | Num l m => rfl
  | Str l s => rfl
  | NameConstant l v => rfl
  | Tuple l elts ctx => simp only [fix_missing, countG, countGL_fix (l.getD n) elts]
  | Starred l v ctx => simp only [fix_missing, countG, countG_fix (l.getD n) v]
  | Attribute l v attr ctx => simp only [fix_missing, countG, countG_fix (l.getD n) v]
  | Subscript l v s ctx =>
      simp only [fix_missing, countG, countG_fix (l.getD n) v, countG_fix (l.getD n) s]
  | Index l v => simp only [fix_missing, countG, countG_fix (l.getD n) v]
  | Slice l lo up stp =>
      simp only [fix_missing, countG, countGO_fix (l.getD n) lo,
        countGO_fix (l.getD n) up, countGO_fix (l.getD n) stp]
  | ExtSlice l dims => simp only [fix_missing, countG, countGL_fix (l.getD n) dims]
  | Call l f args kws =>
      simp only [fix_missing, countG, countG_fix (l.getD n) f,
        countGL_fix (l.getD n) args, countGL_fix (l.getD n) kws, isGA_fix]
  | keyword l a v => simp only [fix_missing, countG, countG_fix (l.getD n) v]
  | Dict l ks vs =>
      simp only [fix_missing, countG, countGL_fix (l.getD n) ks, countGL_fix (l.getD n) vs]
  | Assign l ts v =>
      simp only [fix_missing, countG, countGL_fix (l.getD n) ts, countG_fix (l.getD n) v]
  | AugAssign l t op v =>
      simp only [fix_missing, countG, countG_fix (l.getD n) t, countG_fix (l.getD n) v]
  | unknown l k c => simp only [fix_missing, countG, countGL_fix (l.getD n) c]
  | removed => rfl

theorem countGL_fix (n : Nat) (l : ASTList) : countGL (fix_missingL n l) = countGL l := by
  cases l with
  | nil => rfl
  | cons a t => simp only [fix_missingL, countGL, countG_fix n a, countGL_fix n t]

theorem countGO_fix (n : Nat) (o : OptAST) : countGO (fix_missingO n o) = countGO o := by
  cases o with
  | noneA => rfl
  | someA a => simp only [fix_missingO, countGO, countG_fix n a]
end

theorem countG_withLineno (a : AST) (l : Option Nat) :
    countG (withLineno a l) = countG a := by
  cases a <;> rfl

theorem countG_copy (new_node old_node : AST) :
    countG (copy_locations new_node old_node) = countG new_node := by
  simp only [copy_locations, countG_fix, countG_withLineno]

mutual
theorem countG_spec (t : AST) : countG (gen_unpack_spec t) = 0 := by
  cases t <;>
    first
    | rfl
    | (rename_i l elts c
       simp only [gen_unpack_spec, countG, countGL,
         countGL_spec_children elts (countNonStarred elts) 0 0])

theorem countGL_spec_children (elts : ASTList) (min_len idx offset : Nat) :
    countGL (spec_children elts min_len idx offset) = 0 := by
  cases elts with
  | nil => rfl
  | cons v rest =>
    cases v <;>
      first
      | (simp only [spec_children, is_starred, if_true]
         exact countGL_spec_children rest min_len (idx + 1) (min_len + 1))
      | (rename_i lv ev cv
         simp only [spec_children, is_starred, isTuple, Bool.false_eq_true, if_false,
           countGL, countG, gen_unpack_spec]
         rw [countGL_spec_children ev (countNonStarred ev) 0 0,
           countGL_spec_children rest min_len (idx + 1) offset])
      | (simp only [spec_children, is_starred, Bool.false_eq_true, if_false]
         exact countGL_spec_children rest min_len (idx + 1) offset)
end

mutual
theorem countG_transform (s : AST) : countG (transform_slice s) = countG s := by
  cases s with
  | Index l v => rfl
  | Slice l lo up stp =>
      cases lo <;> cases up <;> cases stp <;>
        (simp [transform_slice, boundArg, gen_none_node, countG, countGL, countGO, isGA]
         <;> omega)
  | ExtSlice l dims =>
      simp only [transform_slice, countG, countGL_transform dims]
  | _ => rfl

theorem countGL_transform (l : ASTList) :
    countGL (transform_sliceL l) = countGL l := by
  cases l with
  | nil => rfl
  | cons a t =>
      simp only [transform_sliceL, countGL, countG_transform a, countGL_transform t]
end

/-- A one-element result list is the singleton of its `first1`. -/
theorem first1_of_len1 (r : ASTList) (h : lengthL r = 1) :
    r = .cons (first1 r) .nil := by
  cases r with
  | nil => simp [ASTList.lengthL] at h
  | cons x t =>
    cases t with
    | nil => rfl
    | cons y u =>
        simp only [ASTList.lengthL] at h
        omega

mutual
/-- The `_getattr_`-wrap count: on trees with no unknown node, no
several-target tuple assignment and no use of the reserved name
`_getattr_`, a visit returns exactly one node, the number of `_getattr_`
calls in the output equals the number of attribute loads in the input, and
the root keeps (non-)tuple-ness and is never the bare name `_getattr_`. -/
theorem visit_countG (st : TState) (e : AST) (hk : known e = true)
    (hd : noDup e = true) (hg : noGA e = true) :
    lengthL (visit st e).2 = 1 ∧ countGL (visit st e).2 = countA e ∧
    isGA (first1 (visit st e).2) = false ∧ isTuple (first1 (visit st e).2) = isTuple e := by
  cases e with
  | Num l n =>
      exact ⟨rfl, rfl, rfl, rfl⟩
  | Str l s =>
      exact ⟨rfl, rfl, rfl, rfl⟩
  | NameConstant l v =>
      exact ⟨rfl, rfl, rfl, rfl⟩
  | Name l id ctx =>
    simp only [noGA, decide_eq_true_eq] at hg
    cases ctx with
    | Load =>
      simp only [visit]
      split_ifs with hp1 hp2 <;>
        refine ⟨?_, ?_, ?_, ?_⟩ <;>
          (try simp [single, first1, ASTList.lengthL, countGL, countG, countA,
             countG_copy, countG_fix, countG_withLineno, isGA_copy, isGA_fix,
             isGA_withLineno, isTuple_copy, isTuple_fix, isTuple_withLineno,
             countG_transform, countG_spec, protect_unpack_sequence, hg]
           try omega)
    | Store =>
      exact ⟨rfl, rfl, by simp [visit, single, first1, isGA, hg], rfl⟩
    | Del =>
      exact ⟨rfl, rfl, by simp [visit, single, first1, isGA, hg], rfl⟩
    | Param =>
      exact ⟨rfl, rfl, by simp [visit, single, first1, isGA, hg], rfl⟩
  | Tuple l elts ctx =>
    simp only [known] at hk
    simp only [noDup] at hd
    simp only [noGA] at hg
    obtain ⟨hLlen, hLcnt, hLtp⟩ := visitL_countG st elts hk hd hg
    rcases hE : visitL st elts with ⟨st1, elts'⟩
    rw [hE] at hLlen hLcnt hLtp
    refine ⟨?_, ?_, ?_, ?_⟩ <;>
      (simp only [visit, hE]
       try simp [single, first1, ASTList.lengthL, countGL, countG, countA,
             countG_copy, countG_fix, countG_withLineno, isGA_copy, isGA_fix,
             isGA_withLineno, isTuple_copy, isTuple_fix, isTuple_withLineno,
             countG_transform, countG_spec, protect_unpack_sequence, hLcnt]
       try omega)
  | Starred l v ctx =>
    simp only [known] at hk
    simp only [noDup] at hd
    simp only [noGA] at hg
    obtain ⟨h1len, h1cnt, h1ga, h1tp⟩ := visit_countG st v hk hd hg
    rcases h1v : visit st v with ⟨st1, rv1⟩
    rw [h1v] at h1len h1cnt h1ga h1tp
    obtain ⟨x1, rfl⟩ : ∃ y, rv1 = .cons y .nil :=
      ⟨first1 rv1, first1_of_len1 rv1 h1len⟩
    have hx11 : countG x1 = countA v := by simpa [countGL] using h1cnt
    have hx12 : isGA x1 = false := by simpa [first1] using h1ga
    have hx13 : isTuple x1 = isTuple v := by simpa [first1] using h1tp
    refine ⟨?_, ?_, ?_, ?_⟩ <;>
      (simp only [visit, h1v]
       try simp [single, first1, ASTList.lengthL, countGL, countG, countA,
             countG_copy, countG_fix, countG_withLineno, isGA_copy, isGA_fix,
             isGA_withLineno, isTuple_copy, isTuple_fix, isTuple_withLineno,
             countG_transform, countG_spec, protect_unpack_sequence, hx11, hx12, hx13]
       try omega)
  | Attribute l v attr ctx =>
    simp only [known] at hk
    simp only [noDup] at hd
    simp only [noGA] at hg
    obtain ⟨h1len, h1cnt, h1ga, h1tp⟩ := visit_countG (check_attr_name st l attr) v hk hd hg
    rcases h1v : visit (check_attr_name st l attr) v with ⟨st1, rv1⟩
    rw [h1v] at h1len h1cnt h1ga h1tp
    obtain ⟨x1, rfl⟩ : ∃ y, rv1 = .cons y .nil :=
      ⟨first1 rv1, first1_of_len1 rv1 h1len⟩
    have hx11 : countG x1 = countA v := by simpa [countGL] using h1cnt
    have hx12 : isGA x1 = false := by simpa [first1] using h1ga
    have hx13 : isTuple x1 = isTuple v := by simpa [first1] using h1tp
    cases ctx <;>
      refine ⟨?_, ?_, ?_, ?_⟩ <;>
        (simp only [visit, h1v]
         try simp [single, first1, ASTList.lengthL, countGL, countG, countA,
             countG_copy, countG_fix, countG_withLineno, isGA_copy, isGA_fix,
             isGA_withLineno, isTuple_copy, isTuple_fix, isTuple_withLineno,
             countG_transform, countG_spec, protect_unpack_sequence, hx11, hx12, hx13]
         try omega)
  | Subscript l v s ctx =>
    simp only [known, Bool.and_eq_true] at hk
    simp only [noDup, Bool.and_eq_true] at hd
    simp only [noGA, Bool.and_eq_true] at hg
    obtain ⟨hk1, hk2⟩ := hk
    obtain ⟨hd1, hd2⟩ := hd
    obtain ⟨hg1, hg2⟩ := hg
    obtain ⟨h1len, h1cnt, h1ga, h1tp⟩ := visit_countG st v hk1 hd1 hg1
    rcases h1v : visit st v with ⟨st1, rv1⟩
    rw [h1v] at h1len h1cnt h1ga h1tp
    obtain ⟨x1, rfl⟩ : ∃ y, rv1 = .cons y .nil :=
      ⟨first1 rv1, first1_of_len1 rv1 h1len⟩
    have hx11 : countG x1 = countA v := by simpa [countGL] using h1cnt
    have hx12 : isGA x1 = false := by simpa [first1] using h1ga
    have hx13 : isTuple x1 = isTuple v := by simpa [first1] using h1tp
    obtain ⟨h2len, h2cnt, h2ga, h2tp⟩ := visit_countG st1 s hk2 hd2 hg2
    rcases h2v : visit st1 s with ⟨st2, rv2⟩
    rw [h2v] at h2len h2cnt h2ga h2tp
    obtain ⟨x2, rfl⟩ : ∃ y, rv2 = .cons y .nil :=
      ⟨first1 rv2, first1_of_len1 rv2 h2len⟩
    have hx21 : countG x2 = countA s := by simpa [countGL] using h2cnt
    have hx22 : isGA x2 = false := by simpa [first1] using h2ga
    have hx23 : isTuple x2 = isTuple s := by simpa [first1] using h2tp
    cases ctx <;>
      refine ⟨?_, ?_, ?_, ?_⟩ <;>
        (simp only [visit, h1v, h2v]
         try simp [single, first1, ASTList.lengthL, countGL, countG, countA,
             countG_copy, countG_fix, countG_withLineno, isGA_copy, isGA_fix,
             isGA_withLineno, isTuple_copy, isTuple_fix, isTuple_withLineno,
             countG_transform, countG_spec, protect_unpack_sequence, hx11, hx12, hx13, hx21, hx22, hx23]
         try omega)
  | Index l v =>
    simp only [known] at hk
    simp only [noDup] at hd
    simp only [noGA] at hg
    obtain ⟨h1len, h1cnt, h1ga, h1tp⟩ := visit_countG st v hk hd hg
    rcases h1v : visit st v with ⟨st1, rv1⟩
    rw [h1v] at h1len h1cnt h1ga h1tp
    obtain ⟨x1, rfl⟩ : ∃ y, rv1 = .cons y .nil :=
      ⟨first1 rv1, first1_of_len1 rv1 h1len⟩
    have hx11 : countG x1 = countA v := by simpa [countGL] using h1cnt
    have hx12 : isGA x1 = false := by simpa [first1] using h1ga
    have hx13 : isTuple x1 = isTuple v := by simpa [first1] using h1tp
    refine ⟨?_, ?_, ?_, ?_⟩ <;>
      (simp only [visit, h1v]
       try simp [single, first1, ASTList.lengthL, countGL, countG, countA,
             countG_copy, countG_fix, countG_withLineno, isGA_copy, isGA_fix,
             isGA_withLineno, isTuple_copy, isTuple_fix, isTuple_withLineno,
             countG_transform, countG_spec, protect_unpack_sequence, hx11, hx12, hx13]
       try omega)
  | Slice l lo up stp =>
    simp only [known, Bool.and_eq_true] at hk
    simp only [noDup, Bool.and_eq_true] at hd
    simp only [noGA, Bool.and_eq_true] at hg
    obtain ⟨⟨hk1, hk2⟩, hk3⟩ := hk
    obtain ⟨⟨hd1, hd2⟩, hd3⟩ := hd
    obtain ⟨⟨hg1, hg2⟩, hg3⟩ := hg
    have h1 := visitOpt_countG st lo hk1 hd1 hg1
    rcases hlo : visitOpt st lo with ⟨st1, lo'⟩
    rw [hlo] at h1
    have h2 := visitOpt_countG st1 up hk2 hd2 hg2
    rcases hup : visitOpt st1 up with ⟨st2, up'⟩
    rw [hup] at h2
    have h3 := visitOpt_countG st2 stp hk3 hd3 hg3
    rcases hstp : visitOpt st2 stp with ⟨st3, stp'⟩
    rw [hstp] at h3
    refine ⟨?_, ?_, ?_, ?_⟩ <;>
      (simp only [visit, hlo, hup, hstp]
       try simp [single, first1, ASTList.lengthL, countGL, countG, countA,
             countG_copy, countG_fix, countG_withLineno, isGA_copy, isGA_fix,
             isGA_withLineno, isTuple_copy, isTuple_fix, isTuple_withLineno,
             countG_transform, countG_spec, protect_unpack_sequence, h1, h2, h3]
       try omega)
  | ExtSlice l dims =>
    simp only [known] at hk
    simp only [noDup] at hd
    simp only [noGA] at hg
    obtain ⟨hLlen, hLcnt, hLtp⟩ := visitL_countG st dims hk hd hg
    rcases hE : visitL st dims with ⟨st1, dims'⟩
    rw [hE] at hLlen hLcnt hLtp
    refine ⟨?_, ?_, ?_, ?_⟩ <;>
      (simp only [visit, hE]
       try simp [single, first1, ASTList.lengthL, countGL, countG, countA,
             countG_copy, countG_fix, countG_withLineno, isGA_copy, isGA_fix,
             isGA_withLineno, isTuple_copy, isTuple_fix, isTuple_withLineno,
             countG_transform, countG_spec, protect_unpack_sequence, hLcnt]
       try omega)
  | Call l f args kws =>
    simp only [known, Bool.and_eq_true] at hk
    simp only [noDup, Bool.and_eq_true] at hd
    simp only [noGA, Bool.and_eq_true] at hg
    obtain ⟨⟨hk1, hk2⟩, hk3⟩ := hk
    obtain ⟨⟨hd1, hd2⟩, hd3⟩ := hd
    obtain ⟨⟨hg1, hg2⟩, hg3⟩ := hg
    obtain ⟨h1len, h1cnt, h1ga, h1tp⟩ := visit_countG (check_exec_eval st l f) f hk1 hd1 hg1
    rcases h1v : visit (check_exec_eval st l f) f with ⟨st1, rv1⟩
    rw [h1v] at h1len h1cnt h1ga h1tp
    obtain ⟨x1, rfl⟩ : ∃ y, rv1 = .cons y .nil :=
      ⟨first1 rv1, first1_of_len1 rv1 h1len⟩
    have hx11 : countG x1 = countA f := by simpa [countGL] using h1cnt
    have hx12 : isGA x1 = false := by simpa [first1] using h1ga
    have hx13 : isTuple x1 = isTuple f := by simpa [first1] using h1tp
    obtain ⟨hAlen, hAcnt, hAtp⟩ := visitL_countG st1 args hk2 hd2 hg2
    rcases ha : visitL st1 args with ⟨st2, args'⟩
    rw [ha] at hAlen hAcnt hAtp
    obtain ⟨hKlen, hKcnt, hKtp⟩ := visitL_countG st2 kws hk3 hd3 hg3
    rcases hw : visitL st2 kws with ⟨st3, kws'⟩
    rw [hw] at hKlen hKcnt hKtp
    by_cases hnw : (anyStarred args || anyKwNone kws) = true <;>
      refine ⟨?_, ?_, ?_, ?_⟩ <;>
        (simp only [visit, h1v, ha, hw, hnw, if_true, Bool.false_eq_true, if_false]
         try simp [single, first1, ASTList.lengthL, countGL, countG, countA,
             countG_copy, countG_fix, countG_withLineno, isGA_copy, isGA_fix,
             isGA_withLineno, isTuple_copy, isTuple_fix, isTuple_withLineno,
             countG_transform, countG_spec, protect_unpack_sequence, hnw, hx11, hx12, hx13, hAcnt, hKcnt]
         try omega)
  | keyword l a v =>
    simp only [known] at hk
    simp only [noDup] at hd
    simp only [noGA] at hg
    obtain ⟨h1len, h1cnt, h1ga, h1tp⟩ := visit_countG st v hk hd hg
    rcases h1v : visit st v with ⟨st1, rv1⟩
    rw [h1v] at h1len h1cnt h1ga h1tp
    obtain ⟨x1, rfl⟩ : ∃ y, rv1 = .cons y .nil :=
      ⟨first1 rv1, first1_of_len1 rv1 h1len⟩
    have hx11 : countG x1 = countA v := by simpa [countGL] using h1cnt
    have hx12 : isGA x1 = false := by simpa [first1] using h1ga
    have hx13 : isTuple x1 = isTuple v := by simpa [first1] using h1tp
    refine ⟨?_, ?_, ?_, ?_⟩ <;>
      (simp only [visit, h1v]
       try simp [single, first1, ASTList.lengthL, countGL, countG, countA,
             countG_copy, countG_fix, countG_withLineno, isGA_copy, isGA_fix,
             isGA_withLineno, isTuple_copy, isTuple_fix, isTuple_withLineno,
             countG_transform, countG_spec, protect_unpack_sequence, hx11, hx12, hx13]
       try omega)
  | Dict l ks vs =>
    simp only [known, Bool.and_eq_true] at hk
    simp only [noDup, Bool.and_eq_true] at hd
    simp only [noGA, Bool.and_eq_true] at hg
    obtain ⟨hk1, hk2⟩ := hk
    obtain ⟨hd1, hd2⟩ := hd
    obtain ⟨hg1, hg2⟩ := hg
    obtain ⟨hKlen, hKcnt, hKtp⟩ := visitL_countG st ks hk1 hd1 hg1
    rcases hKe : visitL st ks with ⟨st1, ks'⟩
    rw [hKe] at hKlen hKcnt hKtp
    obtain ⟨hVlen, hVcnt, hVtp⟩ := visitL_countG st1 vs hk2 hd2 hg2
    rcases hVe : visitL st1 vs with ⟨st2, vs'⟩
    rw [hVe] at hVlen hVcnt hVtp
    refine ⟨?_, ?_, ?_, ?_⟩ <;>
      (simp only [visit, hKe, hVe]
       try simp [single, first1, ASTList.lengthL, countGL, countG, countA,
             countG_copy, countG_fix, countG_withLineno, isGA_copy, isGA_fix,
             isGA_withLineno, isTuple_copy, isTuple_fix, isTuple_withLineno,
             countG_transform, countG_spec, protect_unpack_sequence, hKcnt, hVcnt]
       try omega)
  | Assign l ts v =>
    simp only [known, Bool.and_eq_true] at hk
    simp only [noDup, Bool.and_eq_true] at hd
    simp only [noGA, Bool.and_eq_true] at hg
    obtain ⟨hk1, hk2⟩ := hk
    obtain ⟨⟨hdc, hd1⟩, hd2⟩ := hd
    obtain ⟨hg1, hg2⟩ := hg
    obtain ⟨hTlen, hTcnt, hTtp⟩ := visitL_countG st ts hk1 hd1 hg1
    rcases hT : visitL st ts with ⟨st1, ts'⟩
    rw [hT] at hTlen hTcnt hTtp
    obtain ⟨h1len, h1cnt, h1ga, h1tp⟩ := visit_countG st1 v hk2 hd2 hg2
    rcases h1v : visit st1 v with ⟨st1, rv1⟩
    rw [h1v] at h1len h1cnt h1ga h1tp
    obtain ⟨x1, rfl⟩ : ∃ y, rv1 = .cons y .nil :=
      ⟨first1 rv1, first1_of_len1 rv1 h1len⟩
    have hx11 : countG x1 = countA v := by simpa [countGL] using h1cnt
    have hx12 : isGA x1 = false := by simpa [first1] using h1ga
    have hx13 : isTuple x1 = isTuple v := by simpa [first1] using h1tp
    cases hb : anyTupleL ts' with
    | false =>
      refine ⟨?_, ?_, ?_, ?_⟩ <;>
        (simp only [visit, hT, h1v, hb, Bool.false_eq_true, if_false]
         try simp [single, first1, ASTList.lengthL, countGL, countG, countA,
             countG_copy, countG_fix, countG_withLineno, isGA_copy, isGA_fix,
             isGA_withLineno, isTuple_copy, isTuple_fix, isTuple_withLineno,
             countG_transform, countG_spec, protect_unpack_sequence, hTcnt, hx11, hx12, hx13]
         try omega)
    | true =>
      have hbt : anyTupleL ts = true := by rw [← hTtp]; exact hb
      have hle : lengthL ts ≤ 1 := by
        rw [hbt] at hdc
        simpa using hdc
      cases ts' with
      | nil => simp [anyTupleL] at hb
      | cons t0 rest' =>
        cases rest' with
        | cons t1 rest'' =>
            exfalso
            rw [← hTlen] at hle
            simp only [ASTList.lengthL] at hle
            omega
        | nil =>
          have ht0 : isTuple t0 = true := by simpa [anyTupleL] using hb
          have ht0c : countG t0 = countAL ts := by simpa [countGL] using hTcnt
          refine ⟨?_, ?_, ?_, ?_⟩ <;>
            (simp only [visit, hT, h1v, hb, if_true, ASTList.reverseL, ASTList.appendL,
               mk_assigns, ht0]
             try simp [single, first1, ASTList.lengthL, countGL, countG, countA,
             countG_copy, countG_fix, countG_withLineno, isGA_copy, isGA_fix,
             isGA_withLineno, isTuple_copy, isTuple_fix, isTuple_withLineno,
             countG_transform, countG_spec, protect_unpack_sequence, ht0c, hx11, hx12, hx13]
             try omega)
  | AugAssign l t op v =>
    simp only [known, Bool.and_eq_true] at hk
    simp only [noDup, Bool.and_eq_true] at hd
    simp only [noGA, Bool.and_eq_true] at hg
    obtain ⟨hk1, hk2⟩ := hk
    obtain ⟨hd1, hd2⟩ := hd
    obtain ⟨hg1, hg2⟩ := hg
    obtain ⟨h1len, h1cnt, h1ga, h1tp⟩ := visit_countG st t hk1 hd1 hg1
    rcases h1v : visit st t with ⟨st1, rv1⟩
    rw [h1v] at h1len h1cnt h1ga h1tp
    obtain ⟨xt, rfl⟩ : ∃ y, rv1 = .cons y .nil :=
      ⟨first1 rv1, first1_of_len1 rv1 h1len⟩
    have hx11 : countG xt = countA t := by simpa [countGL] using h1cnt
    have hx12 : isGA xt = false := by simpa [first1] using h1ga
    have hx13 : isTuple xt = isTuple t := by simpa [first1] using h1tp
    obtain ⟨h2len, h2cnt, h2ga, h2tp⟩ := visit_countG st1 v hk2 hd2 hg2
    rcases h2v : visit st1 v with ⟨st2, rv2⟩
    rw [h2v] at h2len h2cnt h2ga h2tp
    obtain ⟨xv, rfl⟩ : ∃ y, rv2 = .cons y .nil :=
      ⟨first1 rv2, first1_of_len1 rv2 h2len⟩
    have hx21 : countG xv = countA v := by simpa [countGL] using h2cnt
    have hx22 : isGA xv = false := by simpa [first1] using h2ga
    have hx23 : isTuple xv = isTuple v := by simpa [first1] using h2tp
    cases xt <;>
      refine ⟨?_, ?_, ?_, ?_⟩ <;>
        (simp only [visit, h1v, h2v]
         try simp [single, first1, ASTList.lengthL, countGL, countG, countA,
             countG_copy, countG_fix, countG_withLineno, isGA_copy, isGA_fix,
             isGA_withLineno, isTuple_copy, isTuple_fix, isTuple_withLineno,
             countG_transform, countG_spec, protect_unpack_sequence, hx21, hx22, hx23]
         try (simp only [countG, countGL, countGO, countA] at hx11
              omega)
         try omega)
  | unknown l k c => simp [known] at hk
  | removed => simp [known] at hk

/-- `visit_countG` over a child list. -/
theorem visitL_countG (st : TState) (l : ASTList) (hk : knownL l = true)
    (hd : noDupL l = true) (hg : noGAL l = true) :
    lengthL (visitL st l).2 = lengthL l ∧ countGL (visitL st l).2 = countAL l ∧
    anyTupleL (visitL st l).2 = anyTupleL l := by
  cases l with
  | nil => exact ⟨rfl, rfl, rfl⟩
  | cons a rest =>
    simp only [knownL, Bool.and_eq_true] at hk
    simp only [noDupL, Bool.and_eq_true] at hd
    simp only [noGAL, Bool.and_eq_true] at hg
    obtain ⟨hk1, hk2⟩ := hk
    obtain ⟨hd1, hd2⟩ := hd
    obtain ⟨hg1, hg2⟩ := hg
    obtain ⟨h1len, h1cnt, h1ga, h1tp⟩ := visit_countG st a hk1 hd1 hg1
    rcases h1v : visit st a with ⟨st1, rv1⟩
    rw [h1v] at h1len h1cnt h1ga h1tp
    obtain ⟨x1, rfl⟩ : ∃ y, rv1 = .cons y .nil :=
      ⟨first1 rv1, first1_of_len1 rv1 h1len⟩
    have hx11 : countG x1 = countA a := by simpa [countGL] using h1cnt
    have hx12 : isGA x1 = false := by simpa [first1] using h1ga
    have hx13 : isTuple x1 = isTuple a := by simpa [first1] using h1tp
    obtain ⟨hRlen, hRcnt, hRtp⟩ := visitL_countG st1 rest hk2 hd2 hg2
    rcases hr : visitL st1 rest with ⟨st2, rrest⟩
    rw [hr] at hRlen hRcnt hRtp
    refine ⟨?_, ?_, ?_⟩ <;>
      (simp only [visitL, h1v, hr, ASTList.appendL]
       try simp [ASTList.lengthL, countGL, countAL, anyTupleL, hRlen, hRcnt, hRtp,
         hx11, hx12, hx13]
       try omega)

/-- `visit_countG` over an optional child. -/
theorem visitOpt_countG (st : TState) (o : OptAST) (hk : knownO o = true)
    (hd : noDupO o = true) (hg : noGAO o = true) :
    countGO (visitOpt st o).2 = countAO o := by
  cases o with
  | noneA => rfl
  | someA a =>
    simp only [knownO] at hk
    simp only [noDupO] at hd
    simp only [noGAO] at hg
    obtain ⟨h1len, h1cnt, h1ga, h1tp⟩ := visit_countG st a hk hd hg
    rcases h1v : visit st a with ⟨st1, rv1⟩
    rw [h1v] at h1len h1cnt h1ga h1tp
    obtain ⟨x1, rfl⟩ : ∃ y, rv1 = .cons y .nil :=
      ⟨first1 rv1, first1_of_len1 rv1 h1len⟩
    have hx11 : countG x1 = countA a := by simpa [countGL] using h1cnt
    have hx12 : isGA x1 = false := by simpa [first1] using h1ga
    have hx13 : isTuple x1 = isTuple a := by simpa [first1] using h1tp
    simp only [visitOpt, h1v, countGO, countAO, first1]
    exact hx11
end

/-- C2, counterexample: for the multi-target assignment `(a, b) = c = x.y`
the input holds one attribute load and the output holds two
`_getattr_` calls — `visit_Assign` emits one assignment per target and reuses
the already-rewritten value expression in each, so the wrap is duplicated,
not "exactly one call in the output per source occurrence". -/
theorem claim2_counterexample :
    countA (.Assign (some 1)
        (.cons (.Tuple (some 1)
            (.cons (.Name (some 1) "a" .Store) (.cons (.Name (some 1) "b" .Store) .nil))
            .Store)
          (.cons (.Name (some 1) "c" .Store) .nil))
        (.Attribute (some 1) (.Name (some 1) "x" .Load) "y" .Load)) = 1 ∧
    countGL (visit st0 (.Assign (some 1)
        (.cons (.Tuple (some 1)
            (.cons (.Name (some 1) "a" .Store) (.cons (.Name (some 1) "b" .Store) .nil))
            .Store)
          (.cons (.Name (some 1) "c" .Store) .nil))
        (.Attribute (some 1) (.Name (some 1) "x" .Load) "y" .Load))).2 = 2 :=
  ⟨rfl, rfl⟩

/-- C2, amended: every attribute load is wrapped exactly once at rewrite
time — `_getattr_(obj, "name")` with the transformed value and the attribute
name as a string literal — and on any tree without unknown nodes, without a
several-target assignment containing a tuple target (which duplicates its
already-rewritten right-hand side), and without the reserved identifier
`_getattr_`, the output contains exactly one `_getattr_` call per source
attribute-load occurrence. -/
theorem claim2_theorem :
    (∀ (st : TState) (e : AST), known e = true → noDup e = true → noGA e = true →
      countGL (visit st e).2 = countA e) ∧
    (∀ (st st1 : TState) (l : Option Nat) (value : AST) (attr : String) (v' : AST),
      visit (check_attr_name st l attr) value = (st1, single v') →
      (visit st (.Attribute l value attr .Load)).1 = st1 ∧
      stripLinesL (visit st (.Attribute l value attr .Load)).2
        = single (.Call none (.Name none "_getattr_" .Load)
            (.cons (stripLines v') (.cons (.Str none attr) .nil)) .nil)) := by
  constructor
  · intro st e hk hd hg
    exact (visit_countG st e hk hd hg).2.1
  · intro st st1 l value attr v' h
    simp only [visit, h, first1, single]
    refine ⟨trivial, ?_⟩
    simp only [stripLinesL, stripLines_copy, stripLines_fix, stripLinesL_fix,
      stripLinesO_fix, stripLines_withLineno, stripLines, stripLinesO]

/-- C2, witness: instantiate the count identity and the rewrite shape on the
single attribute read `x.y`. -/
theorem claim2_witness :
    (known (.Attribute (some 1) (.Name (some 1) "x" .Load) "y" .Load) = true ∧
     noDup (.Attribute (some 1) (.Name (some 1) "x" .Load) "y" .Load) = true ∧
     noGA (.Attribute (some 1) (.Name (some 1) "x" .Load) "y" .Load) = true ∧
     countGL (visit st0 (.Attribute (some 1) (.Name (some 1) "x" .Load) "y" .Load)).2
       = countA (.Attribute (some 1) (.Name (some 1) "x" .Load) "y" .Load)) ∧
    stripLinesL (visit st0 (.Attribute (some 1) (.Name (some 1) "x" .Load) "y" .Load)).2
      = single (.Call none (.Name none "_getattr_" .Load)
          (.cons (.Name none "x" .Load) (.cons (.Str none "y") .nil)) .nil) :=
  ⟨⟨rfl, rfl, rfl,
    claim2_theorem.1 st0 (.Attribute (some 1) (.Name (some 1) "x" .Load) "y" .Load)
      rfl rfl rfl⟩,
   (claim2_theorem.2 st0 { st0 with used_names := ["x"] } (some 1)
      (.Name (some 1) "x" .Load) "y" (.Name (some 1) "x" .Load) (by rfl)).2⟩

/-- C9, witness: instantiate the amended theorem at `obj._`. -/
theorem claim9_witness :
    check_attr_name st0 (some 1) "_" = st0 ∧
    (visit st0 (.Attribute (some 1) (.Name (some 1) "obj" .Load) "_" .Load)).1
      = { st0 with used_names := ["obj"] } ∧
    stripLinesL (visit st0 (.Attribute (some 1) (.Name (some 1) "obj" .Load) "_" .Load)).2
      = single (.Call none (.Name none "_getattr_" .Load)
          (.cons (.Name none "obj" .Load) (.cons (.Str none "_") .nil)) .nil) :=
  claim9_theorem st0 { st0 with used_names := ["obj"] } (some 1)
    (.Name (some 1) "obj" .Load) (.Name (some 1) "obj" .Load) (by rfl)

end RestrictedPython
